import Mathlib

/-!
# TM1637 four-digit display driver

A shallow embedding of the bit-banged TM1637 driver (`Core/Src/TM1637.c`,
`Core/Inc/TM1637.h` and the older flat copy `TM1637.c`).

The C functions only have side effects (pin writes and busy waits), so each
function is embedded as the trace it produces:

* the leaf helpers (`ClockPin`, `DataPin`, `StartTransmision`, `StopTransmision`,
  `SkipAck`, `WriteBit`) yield a list of `PinEvent`;
* `WriteByte` is given by the list of arguments of its successive `WriteBit` calls
  (`WriteByteCalls`) and by the pin trace these calls produce (`WriteByte`);
* the public functions yield the list of calls (`Call`) they make to the
  transmission helpers; `pinTrace` turns such a list into pin events.

`TM1637Init` is given by the values it leaves in the file-scope variables and
`TM1637Crowl` by its sequence of displays and `HAL_Delay` calls. Line levels and bus
conditions (`Lines`, `busEvents`) are read off a pin trace.

Buffers are lists of naturals; reading through a pointer or indexing the table is
fallible (`Except Fault`), so that "no out-of-bounds read" is a statement that can
be proved. Machine integers are naturals; every value that occurs stays below the
width of its C type, which is noted at each place.
-/

namespace TM1637

/-! ## Pin level -/

/-- Enumerator `DOWN` of `enum PinState { DOWN=0, UP }`, used as a `bool` argument. -/
def DOWN : Bool := false

/-- Enumerator `UP` of `enum PinState { DOWN=0, UP }`, used as a `bool` argument. -/
def UP : Bool := true

/-- Macro `PinDelay`. -/
def PinDelay : Nat := 2

/-- Observable effects of the driver on the two lines. `clk set` and `dio set` are
the calls `HAL_GPIO_WritePin(gClkPort, gClkPin, set)` and
`HAL_GPIO_WritePin(gDioPort, gDioPin, set)`; `delay us` is a completed busy wait of
`us` passes of the outer loop of `DelayUSb` (nominally microseconds). -/
inductive PinEvent
  | clk (set : Bool)
  | dio (set : Bool)
  | delay (us : Nat)
  deriving DecidableEq, Repr

/-- Inner loop of `DelayUSb`: `for (uint8_t i = 0; i < 10; ++i) nop`, with `n` the
iterations still to run; returns the number of `nop`s executed. -/
def DelayUSbInner : Nat → Nat
  | 0 => 0
  | n + 1 => 1 + DelayUSbInner n

/-- Busy wait `DelayUSb(us)`: `while (us) { inner loop; --us; }`. Returns the number
of passes of the outer loop and the number of `nop`s executed. -/
def DelayUSb : Nat → Nat × Nat
  | 0 => (0, 0)
  | us + 1 =>
    let nops := DelayUSbInner 10
    let r := DelayUSb us
    (r.1 + 1, r.2 + nops)

/-- The call `DelayUSn(us)`, which forwards to `DelayUSb(us)`. -/
def DelayUSn (us : Nat) : List PinEvent :=
  [PinEvent.delay (DelayUSb us).1]

/-- The call `ClockPin(set)`: write the clock pin, then wait `PinDelay`. -/
def ClockPin (set : Bool) : List PinEvent :=
  PinEvent.clk set :: DelayUSn PinDelay

/-- The call `DataPin(set)`: write the data pin, then wait `PinDelay`. -/
def DataPin (set : Bool) : List PinEvent :=
  PinEvent.dio set :: DelayUSn PinDelay

/-- Body of `StartTransmision`. -/
def StartTransmision : List PinEvent :=
  ClockPin UP ++ DataPin UP ++ DataPin DOWN

/-- Body of `StopTransmision`. -/
def StopTransmision : List PinEvent :=
  ClockPin DOWN ++ DataPin DOWN ++ ClockPin UP ++ DataPin UP

/-- Body of `SkipAck`. -/
def SkipAck : List PinEvent :=
  ClockPin DOWN ++ ClockPin UP ++ ClockPin DOWN

/-- Body of `WriteBit(b)`. -/
def WriteBit (b : Bool) : List PinEvent :=
  ClockPin DOWN ++ DataPin b ++ ClockPin UP

/-- Loop of `WriteByte`: `for (int i = 0; i < 8; ++i) WriteBit(b & (1 << i));` with
`n` the iterations still to run (`8 - i`). The `int` value `b & (1 << i)` becomes the
`bool` argument by comparison with zero. Yields the arguments of the `WriteBit`
calls in order. -/
def WriteByteLoop (b : Nat) : Nat → Nat → List Bool
  | 0, _ => []
  | n + 1, i => ((b &&& (1 <<< i)) != 0) :: WriteByteLoop b n (i + 1)

/-- Arguments of the successive `WriteBit` calls made by `WriteByte(b)`. -/
def WriteByteCalls (b : Nat) : List Bool :=
  WriteByteLoop b 8 0

/-- Pin trace of `WriteByte(b)`. -/
def WriteByte (b : Nat) : List PinEvent :=
  (WriteByteCalls b).flatMap WriteBit

/-! ## Call level -/

/-- A call made by a public function to one of the transmission helpers. -/
inductive Call
  | StartTransmision
  | WriteByte (b : Nat)
  | SkipAck
  | StopTransmision
  deriving DecidableEq, Repr

/-- Pin events produced by one helper call. -/
def Call.pins : Call → List PinEvent
  | Call.StartTransmision => TM1637.StartTransmision
  | Call.WriteByte b => TM1637.WriteByte b
  | Call.SkipAck => TM1637.SkipAck
  | Call.StopTransmision => TM1637.StopTransmision

/-- Pin events produced by a sequence of helper calls. -/
def pinTrace (calls : List Call) : List PinEvent :=
  calls.flatMap Call.pins

/-- An access outside an object. -/
inductive Fault
  | txtOutOfBounds (i : Nat)
  | mapOutOfBounds (idx : Nat)
  deriving DecidableEq, Repr

/-- The read `txt[i]` through the caller's pointer; `txt` lists the readable entries. -/
def readTxt (txt : List Nat) (i : Nat) : Except Fault Nat :=
  match txt[i]? with
  | some c => Except.ok c
  | none => Except.error (Fault.txtOutOfBounds i)

/-- The read `ASCIIMap[idx]`. -/
def readMap (map : List Nat) (idx : Nat) : Except Fault Nat :=
  match map[idx]? with
  | some s => Except.ok s
  | none => Except.error (Fault.mapOutOfBounds idx)

/-- An array `uint8_t name[size] = { init }`: entries without an initialiser are zero. -/
def arrayOfInit (size : Nat) (init : List Nat) : List Nat :=
  init ++ List.replicate (size - init.length) 0

namespace Core

/-- Initialiser list of `ASCIIMap` in `Core/Src/TM1637.c` (124 values). -/
def ASCIIMapInit : List Nat :=
  [0x00, 0x00, 0x00, 0x00, 0x00, 0x00, 0x00, 0x00,
   0x00, 0x00, 0x00, 0x00, 0x00, 0x00, 0x00, 0x00,
   0x00, 0x00, 0x00, 0x00, 0x00, 0x00, 0x00, 0x00,
   0x00, 0x00, 0x00, 0x00, 0x00, 0x00, 0x00, 0x00,
   0x00, 0x00, 0x00, 0x00, 0x00, 0x00, 0x00, 0x00,
   0x00, 0x00, 0x00, 0x00, 0x08, 0x40, 0x08, 0x00,
   0x3f, 0x06, 0x5b, 0x4f, 0x66, 0x6d, 0x7d, 0x07,
   0x7f, 0x6f, 0x00, 0x00, 0x00, 0x00, 0x00, 0x00,
   0x00, 0x77, 0x7c, 0x39, 0x5e, 0x79, 0x71, 0x3d,
   0x76, 0x04, 0x1e, 0x75, 0x38, 0x49, 0x54, 0x5c,
   0x73, 0x67, 0x50, 0x6d, 0x78, 0x1c, 0x3e, 0x7e,
   0x76, 0x6e, 0x5b, 0x00, 0x00, 0x00, 0x00, 0x08,
   0x00, 0x77, 0x7c, 0x39, 0x5e, 0x79, 0x71, 0x3d,
   0x76, 0x04, 0x1e, 0x75, 0x38, 0x49, 0x54, 0x5c,
   0x73, 0x67, 0x50, 0x6d, 0x78, 0x1c, 0x3e, 0x7e,
   0x76, 0x6e, 0x5b, 0x00]

/-- Table `const uint8_t ASCIIMap[128]` of `Core/Src/TM1637.c`. -/
def ASCIIMap : List Nat :=
  arrayOfInit 128 ASCIIMapInit

end Core

namespace Flat

/-- Initialiser list of `ASCIIMap` in the flat copy `TM1637.c` (124 values). -/
def ASCIIMapInit : List Nat :=
  [0x00, 0x00, 0x00, 0x00, 0x00, 0x00, 0x00, 0x00,
   0x00, 0x00, 0x00, 0x00, 0x00, 0x00, 0x00, 0x00,
   0x00, 0x00, 0x00, 0x00, 0x00, 0x00, 0x00, 0x00,
   0x00, 0x00, 0x00, 0x00, 0x00, 0x00, 0x00, 0x00,
   0x00, 0x00, 0x00, 0x00, 0x00, 0x00, 0x00, 0x00,
   0x00, 0x00, 0x00, 0x00, 0x00, 0x00, 0x00, 0x00,
   0x3f, 0x06, 0x5b, 0x4f, 0x66, 0x6d, 0x7d, 0x07,
   0x7f, 0x6f, 0x00, 0x00, 0x00, 0x00, 0x00, 0x00,
   0x00, 0x77, 0x7c, 0x39, 0x5e, 0x79, 0x71, 0x3d,
   0x00, 0x00, 0x00, 0x00, 0x00, 0x00, 0x00, 0x00,
   0x00, 0x00, 0x00, 0x6d, 0x00, 0x00, 0x00, 0x00,
   0x00, 0x00, 0x00, 0x00, 0x00, 0x00, 0x00, 0x00,
   0x00, 0x77, 0x7c, 0x39, 0x5e, 0x79, 0x71, 0x3d,
   0x00, 0x00, 0x00, 0x00, 0x00, 0x00, 0x00, 0x00,
   0x00, 0x00, 0x00, 0x6d, 0x00, 0x00, 0x00, 0x00,
   0x00, 0x00, 0x00, 0x00]

/-- Table `const uint8_t ASCIIMap[128]` of the flat copy `TM1637.c`. -/
def ASCIIMap : List Nat :=
  arrayOfInit 128 ASCIIMapInit

end Flat

/-- The two copies of the driver source. They differ in `ASCIIMap` (and in
`TM1637Crowl`, which only `Core/Src/TM1637.c` has). -/
inductive Variant
  | core
  | flat
  deriving DecidableEq, Repr

/-- The `ASCIIMap` of a source variant. -/
def Variant.ASCIIMap : Variant → List Nat
  | Variant.core => Core.ASCIIMap
  | Variant.flat => Flat.ASCIIMap

/-- Loop of `TM1637DisplayText`:
`for (uint8_t i = 0; i < (len > 4 ? 4 : len); ++i) { ...; SkipAck(); }`, with `n` the
iterations still to run (the bound minus `i`; `i` stays below 4, so `++i` does not
wrap). Table entries are below 256, so is an entry with bit 7 set, and the
`uint8_t` argument of `WriteByte` is passed unchanged. -/
def DisplayTextLoop (map txt : List Nat) (displaySeparator : Bool) :
    Nat → Nat → Except Fault (List Call)
  | 0, _ => pure []
  | n + 1, i => do
    let b ←
      if i == 1 && displaySeparator then do
        let c ← readTxt txt i
        let s ← readMap map (c &&& 127)
        pure (s ||| (1 <<< 7))
      else do
        let c ← readTxt txt i
        readMap map (c &&& 127)
    let rest ← DisplayTextLoop map txt displaySeparator n (i + 1)
    pure (Call.WriteByte b :: Call.SkipAck :: rest)

/-- The function `TM1637DisplayText(txt, len, displaySeparator)`, over the table `map`. -/
def TM1637DisplayText (map txt : List Nat) (len : Nat) (displaySeparator : Bool) :
    Except Fault (List Call) := do
  let data ← DisplayTextLoop map txt displaySeparator (if len > 4 then 4 else len) 0
  pure ([Call.StartTransmision, Call.WriteByte 0x40, Call.SkipAck, Call.StopTransmision,
         Call.StartTransmision, Call.WriteByte 0xc0, Call.SkipAck]
        ++ data ++ [Call.StopTransmision])

/-- Loop of `TM1637DisplayNumber`:
`for (uint8_t i = 0; i < 4; ++i) { digitArr[3 - i] = '0' + (v%10); v /= 10; }`, with
`n` the iterations still to run. `'0'` is 48; the stored digit is converted to
`uint8_t` and the quotient to the `uint16_t` of `v`. -/
def DisplayNumberLoop : Nat → Nat → Nat → List Nat → List Nat
  | 0, _, _, digitArr => digitArr
  | n + 1, i, v, digitArr =>
    DisplayNumberLoop n (i + 1) ((v / 10) % 65536)
      (digitArr.set (3 - i) ((48 + v % 10) % 256))

/-- The function `TM1637DisplayNumber(v, displaySeparator)`, over the table `map`;
`digitArr` starts as `{}` and `sizeof(digitArr)` is 4. -/
def TM1637DisplayNumber (map : List Nat) (v : Nat) (displaySeparator : Bool) :
    Except Fault (List Call) :=
  TM1637DisplayText map (DisplayNumberLoop 4 0 v (arrayOfInit 4 [])) 4 displaySeparator

/-- The function `TM1637SetBrightness(br)`. -/
def TM1637SetBrightness (br : Nat) : List Call :=
  [Call.StartTransmision, Call.WriteByte br, Call.SkipAck, Call.StopTransmision]

/-- Names of the enumerators of `enum Brightness`. -/
inductive Brightness
  | Disabled
  | Brightness0
  | Brightness1
  | Brightness2
  | Brightness3
  | Brightness4
  | Brightness5
  | Brightness6
  | Brightness7
  deriving DecidableEq, Repr

/-- Declaration of `enum Brightness` in `TM1637.h`: the enumerators in order, each
with its explicit initialiser if it has one. -/
def BrightnessDecl : List (Brightness × Option Nat) :=
  [(Brightness.Disabled, some 0x87),
   (Brightness.Brightness0, none),
   (Brightness.Brightness1, none),
   (Brightness.Brightness2, none),
   (Brightness.Brightness3, none),
   (Brightness.Brightness4, none),
   (Brightness.Brightness5, none),
   (Brightness.Brightness6, none),
   (Brightness.Brightness7, none)]

/-- Values of the enumerators of a C `enum` declaration: an enumerator takes its
initialiser, or else the value `next` (one more than its predecessor, 0 for the first). -/
def enumValues {α : Type} : Nat → List (α × Option Nat) → List (α × Nat)
  | _, [] => []
  | _, (name, some k) :: rest => (name, k) :: enumValues (k + 1) rest
  | next, (name, none) :: rest => (name, next) :: enumValues (next + 1) rest

/-- The enumerators of `enum Brightness` with their values. -/
def BrightnessValues : List (Brightness × Nat) :=
  enumValues 0 BrightnessDecl

/-- Value of an enumerator of `enum Brightness`. -/
def Brightness.val (x : Brightness) : Option Nat :=
  (BrightnessValues.find? (fun p => p.1 == x)).map Prod.snd

/-! ## Reading a call trace -/

/-- The bytes passed to `WriteByte`, in order. -/
def bytesWritten : List Call → List Nat
  | [] => []
  | Call.WriteByte b :: rest => b :: bytesWritten rest
  | _ :: rest => bytesWritten rest

/-- The data bytes of a `TM1637DisplayText` call trace: the bytes written after the
two command bytes. -/
def dataBytes (calls : List Call) : List Nat :=
  (bytesWritten calls).drop 2

/-- One bracketed transmission: `StartTransmision`, the calls of `body`,
`StopTransmision`. -/
def frame (body : List Call) : List Call :=
  Call.StartTransmision :: (body ++ [Call.StopTransmision])

/-- A call that may occur inside a frame: a byte write or an acknowledgment skip. -/
def Call.isPayload : Call → Bool
  | Call.WriteByte _ => true
  | Call.SkipAck => true
  | _ => false

/-- Bracket discipline of a call trace, read left to right; `inFrame` tells whether a
frame is open. A start is allowed only outside a frame, a stop and any payload call
only inside one, and the trace must end outside a frame. Yields the number of frames
closed, or `none` when the discipline is broken. -/
def countFrames : Bool → List Call → Option Nat
  | false, [] => some 0
  | true, [] => none
  | false, Call.StartTransmision :: rest => countFrames true rest
  | true, Call.StartTransmision :: _ => none
  | true, Call.StopTransmision :: rest => (countFrames false rest).map (fun k => k + 1)
  | false, Call.StopTransmision :: _ => none
  | true, Call.WriteByte _ :: rest => countFrames true rest
  | true, Call.SkipAck :: rest => countFrames true rest
  | false, Call.WriteByte _ :: _ => none
  | false, Call.SkipAck :: _ => none

/-- The value `sum over i of bit_i * 2^i` of a list of bits, least significant first. -/
def bitsValue : List Bool → Nat
  | [] => 0
  | b :: rest => b.toNat + 2 * bitsValue rest

/-- Seven-segment patterns of the digits 0..9 (bit 0 = segment a .. bit 6 = segment g). -/
def digitSegments : List Nat :=
  [0x3f, 0x06, 0x5b, 0x4f, 0x66, 0x6d, 0x7d, 0x07, 0x7f, 0x6f]

/-! ## Initialisation -/

/-- The file-scope variables `gClkPort`, `gDioPort` (ports, by number) and the
`uint8_t` variables `gClkPin`, `gDioPin`. -/
structure Globals where
  gClkPort : Nat
  gDioPort : Nat
  gClkPin : Nat
  gDioPin : Nat
  deriving DecidableEq, Repr

/-- The `int` expression `1 << pin`; it is undefined when the result does not fit
an `int` (`pin` above 30). -/
def shiftOne (pin : Nat) : Option Nat :=
  if pin < 31 then some (1 <<< pin) else none

/-- The function `TM1637Init(clkPort, dioPort, clkPin, dioPin)`: the values of the
file-scope variables when it returns, and the `Pin` fields of the two
`HAL_GPIO_Init` calls (clock line first). The assignments `gClkPin = (1 << clkPin)`
and `gDioPin = (1 << dioPin)` convert the `int` to `uint8_t`. -/
def TM1637Init (clkPort dioPort clkPin dioPin : Nat) : Option (Globals × List (Nat × Nat)) := do
  let c ← shiftOne clkPin
  let d ← shiftOne dioPin
  let g : Globals :=
    { gClkPort := clkPort, gDioPort := dioPort, gClkPin := c % 256, gDioPin := d % 256 }
  pure (g, [(clkPort, g.gClkPin), (dioPort, g.gDioPin)])

/-! ## Scrolling text -/

/-- An effect of `TM1637Crowl`: a completed `TM1637DisplayText` call with its call
trace, or the call `HAL_Delay(ms)`. -/
inductive CrowlEvent
  | display (calls : List Call)
  | halDelay (ms : Nat)
  deriving DecidableEq, Repr

/-- The call `vsnprintf(buf, size, fmt, ...)` when formatting succeeds, `msg` being
the characters of the whole formatted message: at most `size - 1` of them are stored,
followed by a terminating zero (nothing is stored when `size` is 0); the value
returned is the length of the whole message. -/
def vsnprintf (buf : List Nat) (size : Nat) (msg : List Nat) : List Nat × Nat :=
  if size = 0 then (buf, msg.length)
  else
    let stored := msg.take (size - 1) ++ [0]
    (stored ++ buf.drop stored.length, msg.length)

/-- Loop of `TM1637Crowl`:
`for (int i = 1; i < actualLen + 4; ++i) { TM1637DisplayText(ptr, 4, false);
HAL_Delay(charDelay); ++ptr; }`, with `n` the iterations still to run and `off` the
offset of `ptr` in `buf`; what `ptr` can read is `buf` from `off` on. -/
def CrowlLoop (buf : List Nat) (charDelay : Nat) : Nat → Nat → Except Fault (List CrowlEvent)
  | 0, _ => pure []
  | n + 1, off => do
    let calls ← TM1637DisplayText Core.ASCIIMap (buf.drop off) 4 false
    let rest ← CrowlLoop buf charDelay n (off + 1)
    pure (CrowlEvent.display calls :: CrowlEvent.halDelay charDelay :: rest)

/-- The function `TM1637Crowl(initialDelay, charDelay, fmt, ...)` of
`Core/Src/TM1637.c`, for a successful formatting with message `msg`; the macro
`BUF_LEN` is not defined in the sources at hand and is a parameter. `buf` starts
zeroed, with `BUF_LEN + 4` entries. -/
def TM1637Crowl (BUF_LEN initialDelay charDelay : Nat) (msg : List Nat) :
    Except Fault (List CrowlEvent) :=
  let buf0 := arrayOfInit (BUF_LEN + 4) []
  let r := vsnprintf buf0 BUF_LEN msg
  let buf := r.1
  let actualLen := r.2
  if actualLen < 1 then pure []
  else do
    let first ← TM1637DisplayText Core.ASCIIMap buf 4 false
    let rest ← CrowlLoop buf charDelay (actualLen + 4 - 1) 1
    pure (CrowlEvent.display first :: CrowlEvent.halDelay initialDelay ::
      (rest ++ [CrowlEvent.halDelay initialDelay]))

/-! ## Loop headers -/

/-- Number of passes of a loop `for (i = start; i < bound; ++i)` whose counter is an
unsigned integer of `width` bits, run with `fuel` tests of the condition; `none`
when the fuel does not suffice. -/
def forLoopPasses (width bound : Nat) : Nat → Nat → Option Nat
  | 0, _ => none
  | fuel + 1, i =>
    if i < bound then (forLoopPasses width bound fuel ((i + 1) % 2 ^ width)).map (fun k => k + 1)
    else some 0

/-! ## Line levels and bus conditions -/

/-- Levels last written to the clock line and to the data line. -/
structure Lines where
  clk : Bool
  dio : Bool
  deriving DecidableEq, Repr

/-- Both lines high. -/
def Lines.idle : Lines :=
  { clk := true, dio := true }

/-- Line levels after one pin event. -/
def Lines.step (s : Lines) : PinEvent → Lines
  | PinEvent.clk set => { s with clk := set }
  | PinEvent.dio set => { s with dio := set }
  | PinEvent.delay _ => s

/-- Line levels after a pin trace. -/
def runPins : Lines → List PinEvent → Lines
  | s, [] => s
  | s, e :: rest => runPins (s.step e) rest

/-- What a device on the bus can see: a data change from high to low while the clock
is high (`START`), a data change from low to high while the clock is high (`STOP`),
and a clock change from low to high together with the data level at that moment. -/
inductive BusEvent
  | START
  | STOP
  | rise (data : Bool)
  deriving DecidableEq, Repr

/-- Bus events caused by one pin event at line levels `s`. Data changes while the
clock is low, clock changes from high to low and writes that keep the level cause none. -/
def busStep (s : Lines) : PinEvent → List BusEvent
  | PinEvent.clk set => if set && !s.clk then [BusEvent.rise s.dio] else []
  | PinEvent.dio set =>
    if s.clk && s.dio && !set then [BusEvent.START]
    else if s.clk && !s.dio && set then [BusEvent.STOP]
    else []
  | PinEvent.delay _ => []

/-- Bus events of a pin trace started at line levels `s`. -/
def busEvents : Lines → List PinEvent → List BusEvent
  | _, [] => []
  | s, e :: rest => busStep s e ++ busEvents (s.step e) rest

/-- A data change while the clock is high. -/
def BusEvent.isCondition : BusEvent → Bool
  | BusEvent.START => true
  | BusEvent.STOP => true
  | BusEvent.rise _ => false

/-- A write to the clock pin or to the data pin. -/
def PinEvent.isWrite : PinEvent → Bool
  | PinEvent.clk _ => true
  | PinEvent.dio _ => true
  | PinEvent.delay _ => false

/-- The trace is a sequence of pairs: a pin write, then a delay of 2. -/
def writesSettled : List PinEvent → Bool
  | [] => true
  | PinEvent.clk _ :: PinEvent.delay us :: rest => us == 2 && writesSettled rest
  | PinEvent.dio _ :: PinEvent.delay us :: rest => us == 2 && writesSettled rest
  | _ => false

/-- Exchange of an upper-case letter `A`..`Z` (65..90) with its lower-case letter
`a`..`z` (97..122) and back; other codes are kept. -/
def swapCase (c : Nat) : Nat :=
  if 65 ≤ c ∧ c ≤ 90 then c + 32
  else if 97 ≤ c ∧ c ≤ 122 then c - 32
  else c

/-- The call `TM1637SetBrightness(x)` with an enumerator of `enum Brightness` as
argument, as in the usage example of `TM1637.h`; the `int` value of the enumerator
is converted to the `uint8_t` parameter. -/
def TM1637SetBrightnessOf (x : Brightness) : Option (List Call) :=
  x.val.map (fun v => TM1637SetBrightness (v % 256))

/-- The text `txt` with the case of the letters exchanged at the positions selected
by `change`. -/
def changeCase (change : Nat → Bool) (txt : List Nat) : List Nat :=
  txt.mapIdx (fun i c => if change i then swapCase c else c)

/-- Each call of a call trace together with the bus events it causes, the trace
being started at line levels `s`. -/
def busPerCall : Lines → List Call → List (Call × List BusEvent)
  | _, [] => []
  | s, c :: rest => (c, busEvents s c.pins) :: busPerCall (runPins s c.pins) rest

/-- The bus events a helper call is meant to cause: a start exactly one START
condition, a stop one clock rise with data low and then exactly one STOP condition,
a byte write 8 clock rises carrying bit 0 to bit 7 of the byte, an acknowledgment
skip one clock rise; no other data change while the clock is high. -/
def Call.busAsMeant : Call → List BusEvent → Prop
  | Call.StartTransmision, evs => evs = [BusEvent.START]
  | Call.StopTransmision, evs => evs = [BusEvent.rise false, BusEvent.STOP]
  | Call.WriteByte b, evs =>
    evs = (List.range 8).map (fun i => BusEvent.rise (decide (b / 2 ^ i % 2 = 1)))
  | Call.SkipAck, evs => ∃ d, evs = [BusEvent.rise d]

/-! ## Auxiliary lemmas -/

theorem writeBit_arg_eq_testBit (b i : Nat) :
    ((b &&& (1 <<< i)) != 0) = b.testBit i := by
  rw [Nat.one_shiftLeft, Nat.and_two_pow]
  cases h : b.testBit i
  · simp
  · simp [Bool.toNat]

theorem writeByteLoop_eq (b : Nat) :
    ∀ n i, WriteByteLoop b n i = (List.range' i n).map (fun j => b.testBit j)
  | 0, _ => rfl
  | n + 1, i => by
    simp [WriteByteLoop, List.range', writeBit_arg_eq_testBit, writeByteLoop_eq b n (i + 1)]

theorem bitsValue_testBit (b : Nat) :
    ∀ n i, bitsValue ((List.range' i n).map (fun j => b.testBit j)) = b / 2 ^ i % 2 ^ n
  | 0, i => by simp [bitsValue, Nat.mod_one]
  | n + 1, i => by
    have ih := bitsValue_testBit b n (i + 1)
    simp only [List.range', List.map_cons, bitsValue, ih]
    rw [Nat.testBit_to_div_mod]
    have h1 : b / 2 ^ (i + 1) = b / 2 ^ i / 2 := by
      rw [Nat.pow_succ, Nat.div_div_eq_div_mul]
    have h2 : b / 2 ^ i % 2 ^ (n + 1) = b / 2 ^ i % 2 + 2 * (b / 2 ^ i / 2 % 2 ^ n) := by
      rw [Nat.pow_succ, Nat.mul_comm (2 ^ n) 2, Nat.mod_mul]
    rw [h1, h2]
    rcases Nat.mod_two_eq_zero_or_one (b / 2 ^ i) with h | h <;> simp [h, Bool.toNat]

set_option maxRecDepth 8192 in
theorem variant_map_length (var : Variant) : var.ASCIIMap.length = 128 := by
  cases var <;> decide

set_option maxRecDepth 8192 in
theorem variant_map_lt (var : Variant) : ∀ s ∈ var.ASCIIMap, s < 128 := by
  cases var <;> decide

theorem land_127 (c : Nat) : c &&& 127 = c % 128 :=
  Nat.and_pow_two_sub_one_eq_mod c 7

theorem readMap_ok (var : Variant) (c : Nat) :
    ∃ s, var.ASCIIMap[c % 128]? = some s ∧ s < 128 ∧
      readMap var.ASCIIMap (c &&& 127) = Except.ok s := by
  have hlt : c % 128 < var.ASCIIMap.length := by
    rw [variant_map_length]; exact Nat.mod_lt _ (by decide)
  refine ⟨var.ASCIIMap[c % 128], List.getElem?_eq_getElem hlt,
    variant_map_lt var _ (List.getElem_mem hlt), ?_⟩
  simp [readMap, land_127, List.getElem?_eq_getElem hlt]

theorem readTxt_ok (txt : List Nat) (i : Nat) (h : i < txt.length) :
    ∃ c, txt[i]? = some c ∧ readTxt txt i = Except.ok c :=
  ⟨txt[i], List.getElem?_eq_getElem h, by simp [readTxt, List.getElem?_eq_getElem h]⟩

theorem displayTextLoop_ok (var : Variant) (txt : List Nat) (sep : Bool) :
    ∀ n i, i + n ≤ txt.length →
      ∃ ds : List Nat,
        DisplayTextLoop var.ASCIIMap txt sep n i =
          Except.ok (ds.flatMap (fun d => [Call.WriteByte d, Call.SkipAck])) ∧
        ds.length = n ∧
        ∀ k, k < n → ∃ c s, txt[i + k]? = some c ∧ var.ASCIIMap[c % 128]? = some s ∧
          s < 128 ∧ ds[k]? = some (if i + k = 1 ∧ sep = true then s ||| 0x80 else s)
  | 0, _, _ => ⟨[], rfl, rfl, fun k hk => absurd hk (Nat.not_lt_zero k)⟩
  | n + 1, i, h => by
    obtain ⟨c, hc, hrt⟩ := readTxt_ok txt i (by omega)
    obtain ⟨s, hs, hslt, hrm⟩ := readMap_ok var c
    obtain ⟨ds, hds, hlen, hall⟩ := displayTextLoop_ok var txt sep n (i + 1) (by omega)
    refine ⟨(if i = 1 ∧ sep = true then s ||| 0x80 else s) :: ds, ?_, by simp [hlen], ?_⟩
    · by_cases hcond : i = 1 ∧ sep = true
      · obtain ⟨rfl, rfl⟩ := hcond
        simp [DisplayTextLoop, hrt, hrm, hds, bind, Except.bind, pure, Except.pure]
      · have hb : (i == 1 && sep) = false := by
          cases sep <;> simp_all
        simp [DisplayTextLoop, hrt, hrm, hds, hcond, hb, bind, Except.bind, pure, Except.pure]
    · intro k hk
      cases k with
      | zero => exact ⟨c, s, by simpa using hc, hs, hslt, by simp⟩
      | succ k =>
        obtain ⟨c', s', h1, h2, h3, h4⟩ := hall k (by omega)
        refine ⟨c', s', ?_, h2, h3, ?_⟩
        · rw [← h1]; congr 1; omega
        · rw [List.getElem?_cons_succ, h4]
          have : i + (k + 1) = i + 1 + k := by omega
          rw [this]

theorem displayText_ok (var : Variant) (txt : List Nat) (len : Nat) (sep : Bool)
    (h : min len 4 ≤ txt.length) :
    ∃ ds : List Nat,
      TM1637DisplayText var.ASCIIMap txt len sep =
        Except.ok
          ([Call.StartTransmision, Call.WriteByte 0x40, Call.SkipAck, Call.StopTransmision,
            Call.StartTransmision, Call.WriteByte 0xc0, Call.SkipAck]
            ++ ds.flatMap (fun d => [Call.WriteByte d, Call.SkipAck])
            ++ [Call.StopTransmision]) ∧
      ds.length = min len 4 ∧
      ∀ k, k < min len 4 → ∃ c s, txt[k]? = some c ∧ var.ASCIIMap[c % 128]? = some s ∧
        s < 128 ∧ ds[k]? = some (if k = 1 ∧ sep = true then s ||| 0x80 else s) := by
  have hb : (if len > 4 then 4 else len) = min len 4 := by
    split <;> omega
  obtain ⟨ds, hds, hlen, hall⟩ := displayTextLoop_ok var txt sep (min len 4) 0 (by omega)
  refine ⟨ds, ?_, hlen, ?_⟩
  · simp only [TM1637DisplayText, hb, hds, bind, Except.bind, pure, Except.pure]
  · intro k hk
    simpa using hall k hk

theorem bytesWritten_data (ds : List Nat) (tail : List Call) :
    bytesWritten (ds.flatMap (fun d => [Call.WriteByte d, Call.SkipAck]) ++ tail) =
      ds ++ bytesWritten tail := by
  induction ds with
  | nil => simp
  | cons d ds ih => simpa [List.flatMap, bytesWritten] using ih

theorem dataBytes_displayText (ds : List Nat) :
    dataBytes
        ([Call.StartTransmision, Call.WriteByte 0x40, Call.SkipAck, Call.StopTransmision,
          Call.StartTransmision, Call.WriteByte 0xc0, Call.SkipAck]
          ++ ds.flatMap (fun d => [Call.WriteByte d, Call.SkipAck])
          ++ [Call.StopTransmision]) = ds := by
  simp [dataBytes, bytesWritten, bytesWritten_data]

theorem bitsValue_writeByteCalls (b : Nat) (hb : b < 256) :
    bitsValue (WriteByteCalls b) = b := by
  have hc : WriteByteCalls b = (List.range' 0 8).map (fun j => b.testBit j) :=
    writeByteLoop_eq b 8 0
  rw [hc, bitsValue_testBit b 8 0]
  simp
  omega

theorem displayNumberLoop_digits (v : Nat) (hv : v < 65536) :
    DisplayNumberLoop 4 0 v (arrayOfInit 4 []) =
      [48 + v % 10000 / 1000, 48 + v % 10000 / 100 % 10,
       48 + v % 10000 / 10 % 10, 48 + v % 10000 % 10] := by
  simp [DisplayNumberLoop, arrayOfInit, List.replicate, List.set]
  refine ⟨?_, ?_, ?_, ?_⟩ <;> omega

set_option maxRecDepth 8192 in
theorem bit7_of_lt_128 :
    ∀ s, s < 128 →
      s &&& 0x80 = 0 ∧ (s ||| 0x80) &&& 0x80 = 0x80 ∧ s ||| 0x80 = s + 0x80 ∧
        (s ||| 0x80) &&& 127 = s ∧ s &&& 127 = s := by
  decide

theorem displayTextLoop_congr (map txt txt' : List Nat) (sep : Bool) :
    ∀ n i, (∀ k, i ≤ k → k < i + n → txt'[k]? = txt[k]?) →
      DisplayTextLoop map txt' sep n i = DisplayTextLoop map txt sep n i
  | 0, _, _ => rfl
  | n + 1, i, h => by
    have hr : readTxt txt' i = readTxt txt i := by
      simp [readTxt, h i (Nat.le_refl i) (by omega)]
    have ih := displayTextLoop_congr map txt txt' sep n (i + 1)
      (fun k h1 h2 => h k (by omega) (by omega))
    simp only [DisplayTextLoop, hr, ih]

theorem displayText_congr (map txt txt' : List Nat) (len : Nat) (sep : Bool)
    (h : ∀ k, k < min len 4 → txt'[k]? = txt[k]?) :
    TM1637DisplayText map txt' len sep = TM1637DisplayText map txt len sep := by
  have hb : (if len > 4 then 4 else len) = min len 4 := by
    split <;> omega
  have hl := displayTextLoop_congr map txt txt' sep (min len 4) 0
    (fun k _ h2 => h k (by omega))
  simp only [TM1637DisplayText, hb, hl]

theorem data_all_payload (ds : List Nat) :
    (ds.flatMap (fun d => [Call.WriteByte d, Call.SkipAck])).all Call.isPayload = true := by
  induction ds with
  | nil => rfl
  | cons d ds _ => simp [List.flatMap, Call.isPayload]

theorem countFrames_body (rest : List Call) :
    ∀ p : List Call, p.all Call.isPayload = true →
      countFrames true (p ++ Call.StopTransmision :: rest) =
        (countFrames false rest).map (fun k => k + 1)
  | [], _ => rfl
  | Call.WriteByte _ :: p, h => by
    simpa [countFrames] using countFrames_body rest p (by simpa [Call.isPayload] using h)
  | Call.SkipAck :: p, h => by
    simpa [countFrames] using countFrames_body rest p (by simpa [Call.isPayload] using h)
  | Call.StartTransmision :: _, h => by simp [Call.isPayload] at h
  | Call.StopTransmision :: _, h => by simp [Call.isPayload] at h

theorem countFrames_frame (p rest : List Call) (h : p.all Call.isPayload = true) :
    countFrames false (frame p ++ rest) = (countFrames false rest).map (fun k => k + 1) := by
  have := countFrames_body rest p h
  simpa [frame, countFrames] using this

set_option maxRecDepth 8192 in
theorem digit_lookup (var : Variant) :
    ∀ d, d < 10 → var.ASCIIMap[(48 + d) % 128]? = digitSegments[d]? := by
  cases var <;> decide

theorem displayText_two_frames (var : Variant) (txt : List Nat) (len : Nat) (sep : Bool)
    (h : min len 4 ≤ txt.length) :
    ∃ calls p q,
      TM1637DisplayText var.ASCIIMap txt len sep = Except.ok calls ∧
      calls = frame p ++ frame q ∧
      p.all Call.isPayload = true ∧ q.all Call.isPayload = true ∧
      countFrames false calls = some 2 := by
  obtain ⟨ds, heq, -, -⟩ := displayText_ok var txt len sep h
  have hp : [Call.WriteByte 0x40, Call.SkipAck].all Call.isPayload = true := rfl
  have hq : ([Call.WriteByte 0xc0, Call.SkipAck]
      ++ ds.flatMap (fun d => [Call.WriteByte d, Call.SkipAck])).all Call.isPayload = true := by
    rw [List.all_append, data_all_payload]
    rfl
  refine ⟨_, [Call.WriteByte 0x40, Call.SkipAck],
    [Call.WriteByte 0xc0, Call.SkipAck]
      ++ ds.flatMap (fun d => [Call.WriteByte d, Call.SkipAck]), heq, by simp [frame],
    hp, hq, ?_⟩
  have e : ([Call.StartTransmision, Call.WriteByte 0x40, Call.SkipAck, Call.StopTransmision,
        Call.StartTransmision, Call.WriteByte 0xc0, Call.SkipAck]
        ++ ds.flatMap (fun d => [Call.WriteByte d, Call.SkipAck])
        ++ [Call.StopTransmision]) =
      frame [Call.WriteByte 0x40, Call.SkipAck] ++
        (frame ([Call.WriteByte 0xc0, Call.SkipAck]
          ++ ds.flatMap (fun d => [Call.WriteByte d, Call.SkipAck])) ++ []) := by
    simp [frame]
  rw [e, countFrames_frame _ _ hp, countFrames_frame _ _ hq]
  rfl

theorem displayText_eq_of_lookup_eq (var var' : Variant) (txt txt' : List Nat) (len : Nat)
    (sep : Bool) (h : min len 4 ≤ txt.length) (h' : min len 4 ≤ txt'.length)
    (hl : ∀ i c c', i < min len 4 → txt[i]? = some c → txt'[i]? = some c' →
      var'.ASCIIMap[c' % 128]? = var.ASCIIMap[c % 128]?) :
    TM1637DisplayText var'.ASCIIMap txt' len sep =
      TM1637DisplayText var.ASCIIMap txt len sep := by
  obtain ⟨ds, heq, hlen, hall⟩ := displayText_ok var txt len sep h
  obtain ⟨ds', heq', hlen', hall'⟩ := displayText_ok var' txt' len sep h'
  have hds : ds' = ds := by
    apply List.ext_getElem?
    intro i
    by_cases hi : i < min len 4
    · obtain ⟨c, s, hc, hs, -, hd⟩ := hall i hi
      obtain ⟨c', s', hc', hs', -, hd'⟩ := hall' i hi
      have hss : s' = s := by
        rw [hl i c c' hi hc hc'] at hs'
        exact Option.some.inj (hs'.symm.trans hs)
      rw [hd, hd', hss]
    · rw [List.getElem?_eq_none (by omega), List.getElem?_eq_none (by omega)]
  rw [heq, heq', hds]

set_option maxRecDepth 8192 in
theorem case_lookup (var : Variant) :
    ∀ k, k < 26 → var.ASCIIMap[97 + k]? = var.ASCIIMap[65 + k]? := by
  cases var <;> decide

theorem swapCase_lookup (var : Variant) (c : Nat) :
    var.ASCIIMap[swapCase c % 128]? = var.ASCIIMap[c % 128]? := by
  unfold swapCase
  split
  · rename_i hc
    have e1 : (c + 32) % 128 = 97 + (c - 65) := by omega
    have e2 : c % 128 = 65 + (c - 65) := by omega
    rw [e1, e2]
    exact case_lookup var (c - 65) (by omega)
  · split
    · rename_i hc
      have e1 : (c - 32) % 128 = 65 + (c - 97) := by omega
      have e2 : c % 128 = 97 + (c - 97) := by omega
      rw [e1, e2]
      exact (case_lookup var (c - 97) (by omega)).symm
    · rfl

theorem runPins_append (a b : List PinEvent) :
    ∀ s, runPins s (a ++ b) = runPins (runPins s a) b := by
  induction a with
  | nil => intro s; rfl
  | cons e a ih => intro s; exact ih (s.step e)

theorem busEvents_append (a b : List PinEvent) :
    ∀ s, busEvents s (a ++ b) = busEvents s a ++ busEvents (runPins s a) b := by
  induction a with
  | nil => intro s; rfl
  | cons e a ih =>
    intro s
    show busStep s e ++ busEvents (s.step e) (a ++ b) =
      (busStep s e ++ busEvents (s.step e) a) ++ busEvents (runPins (s.step e) a) b
    rw [ih, List.append_assoc]

theorem pinTrace_cons (c : Call) (rest : List Call) :
    pinTrace (c :: rest) = c.pins ++ pinTrace rest := by
  simp [pinTrace]

theorem pinTrace_append (a b : List Call) :
    pinTrace (a ++ b) = pinTrace a ++ pinTrace b := by
  simp [pinTrace]

theorem run_start (s : Lines) :
    runPins s StartTransmision = { clk := true, dio := false } := by
  rcases s with ⟨_ | _, _ | _⟩ <;> rfl

theorem bus_start_idle : busEvents Lines.idle StartTransmision = [BusEvent.START] := rfl

theorem run_stop (s : Lines) : runPins s StopTransmision = Lines.idle := by
  rcases s with ⟨_ | _, _ | _⟩ <;> rfl

theorem bus_stop (s : Lines) :
    busEvents s StopTransmision = [BusEvent.rise false, BusEvent.STOP] := by
  rcases s with ⟨_ | _, _ | _⟩ <;> rfl

theorem run_skipAck (s : Lines) : runPins s SkipAck = { clk := false, dio := s.dio } := by
  rcases s with ⟨_ | _, _ | _⟩ <;> rfl

theorem bus_skipAck (s : Lines) : busEvents s SkipAck = [BusEvent.rise s.dio] := by
  rcases s with ⟨_ | _, _ | _⟩ <;> rfl

theorem run_writeBit (s : Lines) (b : Bool) :
    runPins s (WriteBit b) = { clk := true, dio := b } := by
  rcases s with ⟨_ | _, _ | _⟩ <;> cases b <;> rfl

theorem bus_writeBit (s : Lines) (b : Bool) :
    busEvents s (WriteBit b) = [BusEvent.rise b] := by
  rcases s with ⟨_ | _, _ | _⟩ <;> cases b <;> rfl

theorem bus_writeBits (bs : List Bool) :
    ∀ s, busEvents s (bs.flatMap WriteBit) = bs.map BusEvent.rise := by
  induction bs with
  | nil => intro s; rfl
  | cons b bs ih =>
    intro s
    rw [List.flatMap_cons, busEvents_append, bus_writeBit, ih]
    rfl

theorem bus_writeByte (s : Lines) (b : Nat) :
    busEvents s (WriteByte b) =
      (List.range 8).map (fun i => BusEvent.rise (decide (b / 2 ^ i % 2 = 1))) := by
  have hc : WriteByteCalls b = (List.range' 0 8).map (fun j => b.testBit j) :=
    writeByteLoop_eq b 8 0
  rw [WriteByte, bus_writeBits, hc]
  simp [List.range', List.range, List.range.loop, Nat.testBit_to_div_mod]

theorem call_busAsMeant (c : Call) (s : Lines)
    (h : c = Call.StartTransmision → s = Lines.idle) :
    c.busAsMeant (busEvents s c.pins) := by
  cases c with
  | StartTransmision =>
    rw [h rfl]
    exact bus_start_idle
  | WriteByte b => exact bus_writeByte s b
  | SkipAck => exact ⟨s.dio, bus_skipAck s⟩
  | StopTransmision => exact bus_stop s

theorem busAsMeant_payload_conditions (c : Call) (evs : List BusEvent)
    (hp : c.isPayload = true) (h : c.busAsMeant evs) :
    evs.filter BusEvent.isCondition = [] := by
  cases c with
  | StartTransmision => simp [Call.isPayload] at hp
  | StopTransmision => simp [Call.isPayload] at hp
  | WriteByte b =>
    rw [show evs = _ from h]
    simp [List.range, List.range.loop, BusEvent.isCondition]
  | SkipAck =>
    obtain ⟨d, hd⟩ := h
    rw [hd]
    rfl

theorem payload_bus (p : List Call) (hp : p.all Call.isPayload = true) :
    ∀ s, (∀ x ∈ busPerCall s p, x.1.busAsMeant x.2) ∧
      (busEvents s (pinTrace p)).filter BusEvent.isCondition = [] := by
  induction p with
  | nil => intro s; exact ⟨fun x hx => by simp [busPerCall] at hx, rfl⟩
  | cons c p ih =>
    intro s
    have hc : c.isPayload = true := by
      simp only [List.all_cons, Bool.and_eq_true] at hp
      exact hp.1
    have hrest : p.all Call.isPayload = true := by
      simp only [List.all_cons, Bool.and_eq_true] at hp
      exact hp.2
    have hm : c.busAsMeant (busEvents s c.pins) :=
      call_busAsMeant c s (fun e => by rw [e] at hc; simp [Call.isPayload] at hc)
    obtain ⟨h1, h2⟩ := ih hrest (runPins s c.pins)
    refine ⟨?_, ?_⟩
    · intro x hx
      simp only [busPerCall, List.mem_cons] at hx
      rcases hx with rfl | hx
      · exact hm
      · exact h1 x hx
    · rw [pinTrace_cons, busEvents_append, List.filter_append, h2,
        busAsMeant_payload_conditions c _ hc hm]
      rfl

theorem frame_bus (p rest : List Call) (hp : p.all Call.isPayload = true) :
    runPins Lines.idle (pinTrace (frame p)) = Lines.idle ∧
    (∀ s, runPins s (pinTrace (frame p ++ rest)) = runPins Lines.idle (pinTrace rest)) ∧
    (busEvents Lines.idle (pinTrace (frame p ++ rest))).filter BusEvent.isCondition =
      BusEvent.START :: BusEvent.STOP ::
        (busEvents Lines.idle (pinTrace rest)).filter BusEvent.isCondition ∧
    ((∀ x ∈ busPerCall Lines.idle rest, x.1.busAsMeant x.2) →
      ∀ x ∈ busPerCall Lines.idle (frame p ++ rest), x.1.busAsMeant x.2) := by
  have hrun : ∀ s, runPins s (pinTrace (frame p)) = Lines.idle := by
    intro s
    rw [frame, pinTrace_cons, pinTrace_append, runPins_append, runPins_append]
    simp only [pinTrace, List.flatMap_cons, List.flatMap_nil, List.append_nil, Call.pins]
    exact run_stop _
  refine ⟨hrun _, ?_, ?_, ?_⟩
  · intro s
    rw [pinTrace_append, runPins_append, hrun]
  · obtain ⟨-, h2⟩ := payload_bus p hp { clk := true, dio := false }
    have e : pinTrace (frame p ++ rest) =
        StartTransmision ++ (pinTrace p ++ (StopTransmision ++ pinTrace rest)) := by
      simp [frame, pinTrace, Call.pins]
    rw [e, busEvents_append, busEvents_append, busEvents_append, bus_start_idle,
      run_start, bus_stop, run_stop]
    simp only [List.filter_append, h2]
    rfl
  · intro hr x hx
    obtain ⟨h1, -⟩ := payload_bus p hp { clk := true, dio := false }
    have hper : ∀ (a b : List Call) (s : Lines),
        busPerCall s (a ++ b) = busPerCall s a ++ busPerCall (runPins s (pinTrace a)) b := by
      intro a
      induction a with
      | nil => intro b s; rfl
      | cons c a ih =>
        intro b s
        show (c, busEvents s c.pins) :: busPerCall (runPins s c.pins) (a ++ b) =
          (c, busEvents s c.pins) :: busPerCall (runPins s c.pins) a ++
            busPerCall (runPins s (pinTrace (c :: a))) b
        rw [ih, pinTrace_cons, runPins_append]
        rfl
    have e : frame p ++ rest =
        [Call.StartTransmision] ++ (p ++ ([Call.StopTransmision] ++ rest)) := by
      simp [frame]
    rw [e, hper, hper, hper] at hx
    simp only [List.mem_append] at hx
    rcases hx with hx | hx | hx | hx
    · simp only [busPerCall, List.mem_singleton] at hx
      rw [hx]
      exact bus_start_idle
    · have hs : runPins Lines.idle (pinTrace [Call.StartTransmision]) =
          { clk := true, dio := false } := rfl
      rw [hs] at hx
      exact h1 x hx
    · simp only [busPerCall, List.mem_singleton] at hx
      rw [hx]
      exact bus_stop _
    · have hs : ∀ s, runPins s (pinTrace [Call.StopTransmision]) = Lines.idle := by
        intro s
        simp only [pinTrace, List.flatMap_cons, List.flatMap_nil, List.append_nil, Call.pins]
        exact run_stop s
      rw [hs] at hx
      exact hr x hx

theorem run_frame (p : List Call) (s : Lines) :
    runPins s (pinTrace (frame p)) = Lines.idle := by
  rw [frame, pinTrace_cons, pinTrace_append, runPins_append, runPins_append]
  simp only [pinTrace, List.flatMap_cons, List.flatMap_nil, List.append_nil, Call.pins]
  exact run_stop _

theorem run_two_frames (p q : List Call) (s : Lines) :
    runPins s (pinTrace (frame p ++ frame q)) = Lines.idle := by
  rw [pinTrace_append, runPins_append, run_frame]

theorem displayNumber_two_frames (var : Variant) (v : Nat) (sep : Bool) (hv : v < 65536) :
    ∃ calls p q,
      TM1637DisplayNumber var.ASCIIMap v sep = Except.ok calls ∧
      calls = frame p ++ frame q ∧
      p.all Call.isPayload = true ∧ q.all Call.isPayload = true ∧
      countFrames false calls = some 2 := by
  have hd := displayNumberLoop_digits v hv
  exact displayText_two_frames var (DisplayNumberLoop 4 0 v (arrayOfInit 4 [])) 4 sep
    (by simp [hd])

theorem settled_write (e : PinEvent) (rest : List PinEvent) (he : e.isWrite = true) :
    writesSettled (e :: PinEvent.delay 2 :: rest) = writesSettled rest := by
  cases e with
  | clk b => simp [writesSettled]
  | dio b => simp [writesSettled]
  | delay n => simp [PinEvent.isWrite] at he

theorem settled_append (b : List PinEvent) (hb : writesSettled b = true) :
    ∀ (n : Nat) (a : List PinEvent), a.length ≤ n → writesSettled a = true →
      writesSettled (a ++ b) = true
  | _, [], _, _ => hb
  | 0, _ :: _, hn, _ => by simp at hn
  | _, [PinEvent.clk _], _, ha => by simp [writesSettled] at ha
  | _, [PinEvent.dio _], _, ha => by simp [writesSettled] at ha
  | _, PinEvent.delay _ :: _, _, ha => by simp [writesSettled] at ha
  | _, PinEvent.clk _ :: PinEvent.clk _ :: _, _, ha => by simp [writesSettled] at ha
  | _, PinEvent.clk _ :: PinEvent.dio _ :: _, _, ha => by simp [writesSettled] at ha
  | _, PinEvent.dio _ :: PinEvent.clk _ :: _, _, ha => by simp [writesSettled] at ha
  | _, PinEvent.dio _ :: PinEvent.dio _ :: _, _, ha => by simp [writesSettled] at ha
  | n + 1, PinEvent.clk _ :: PinEvent.delay us :: rest, hn, ha => by
    simp only [writesSettled, Bool.and_eq_true] at ha
    have ih := settled_append b hb n rest (by simp at hn; omega) ha.2
    simp [writesSettled, ha.1, ih]
  | n + 1, PinEvent.dio _ :: PinEvent.delay us :: rest, hn, ha => by
    simp only [writesSettled, Bool.and_eq_true] at ha
    have ih := settled_append b hb n rest (by simp at hn; omega) ha.2
    simp [writesSettled, ha.1, ih]

theorem settled_counts :
    ∀ (n : Nat) (a : List PinEvent), a.length ≤ n → writesSettled a = true →
      a.countP PinEvent.isWrite = a.countP (fun e => e == PinEvent.delay 2) ∧
      a.length = 2 * a.countP PinEvent.isWrite
  | _, [], _, _ => ⟨rfl, rfl⟩
  | 0, _ :: _, hn, _ => by simp at hn
  | _, [PinEvent.clk _], _, ha => by simp [writesSettled] at ha
  | _, [PinEvent.dio _], _, ha => by simp [writesSettled] at ha
  | _, PinEvent.delay _ :: _, _, ha => by simp [writesSettled] at ha
  | _, PinEvent.clk _ :: PinEvent.clk _ :: _, _, ha => by simp [writesSettled] at ha
  | _, PinEvent.clk _ :: PinEvent.dio _ :: _, _, ha => by simp [writesSettled] at ha
  | _, PinEvent.dio _ :: PinEvent.clk _ :: _, _, ha => by simp [writesSettled] at ha
  | _, PinEvent.dio _ :: PinEvent.dio _ :: _, _, ha => by simp [writesSettled] at ha
  | n + 1, PinEvent.clk _ :: PinEvent.delay us :: rest, hn, ha => by
    simp only [writesSettled, Bool.and_eq_true, beq_iff_eq] at ha
    obtain ⟨h1, h2⟩ := settled_counts n rest (by simp at hn; omega) ha.2
    simp [List.countP_cons, PinEvent.isWrite, ha.1, h1.symm, h2]
    omega
  | n + 1, PinEvent.dio _ :: PinEvent.delay us :: rest, hn, ha => by
    simp only [writesSettled, Bool.and_eq_true, beq_iff_eq] at ha
    obtain ⟨h1, h2⟩ := settled_counts n rest (by simp at hn; omega) ha.2
    simp [List.countP_cons, PinEvent.isWrite, ha.1, h1.symm, h2]
    omega

theorem call_settled (c : Call) : writesSettled c.pins = true := by
  cases c with
  | StartTransmision => rfl
  | SkipAck => rfl
  | StopTransmision => rfl
  | WriteByte b =>
    have hbits : ∀ bs : List Bool, writesSettled (bs.flatMap WriteBit) = true := by
      intro bs
      induction bs with
      | nil => rfl
      | cons x bs ih =>
        rw [List.flatMap_cons]
        exact settled_append _ ih _ _ (Nat.le_refl _) (by cases x <;> rfl)
    exact hbits _

theorem pinTrace_settled (calls : List Call) : writesSettled (pinTrace calls) = true := by
  induction calls with
  | nil => rfl
  | cons c calls ih =>
    rw [pinTrace_cons]
    exact settled_append _ ih _ _ (Nat.le_refl _) (call_settled c)

theorem pinTrace_counts (calls : List Call) :
    (pinTrace calls).countP PinEvent.isWrite =
      (pinTrace calls).countP (fun e => e == PinEvent.delay 2) ∧
    (pinTrace calls).length = 2 * (pinTrace calls).countP PinEvent.isWrite :=
  settled_counts _ _ (Nat.le_refl _) (pinTrace_settled calls)

theorem delayUSb_eq : ∀ us, DelayUSb us = (us, 10 * us)
  | 0 => rfl
  | us + 1 => by
    have hin : DelayUSbInner 10 = 10 := rfl
    simp only [DelayUSb, delayUSb_eq us, hin]
    simp
    omega

theorem writeByte_length (b : Nat) : (WriteByte b).length = 48 := by
  have hbits : ∀ bs : List Bool, (bs.flatMap WriteBit).length = 6 * bs.length := by
    intro bs
    induction bs with
    | nil => rfl
    | cons x bs ih =>
      have hx : (WriteBit x).length = 6 := by cases x <;> rfl
      rw [List.flatMap_cons, List.length_append, ih, hx, List.length_cons]
      omega
  have hc : WriteByteCalls b = (List.range' 0 8).map (fun j => b.testBit j) :=
    writeByteLoop_eq b 8 0
  rw [WriteByte, hbits, hc]
  simp

theorem data_pins_length (ds : List Nat) :
    (pinTrace (ds.flatMap (fun d => [Call.WriteByte d, Call.SkipAck]))).length =
      54 * ds.length := by
  induction ds with
  | nil => rfl
  | cons d ds ih =>
    have hs : SkipAck.length = 6 := rfl
    rw [List.flatMap_cons, pinTrace_append, List.length_append, ih]
    simp only [pinTrace, List.flatMap_cons, List.flatMap_nil, List.append_nil, Call.pins,
      List.length_append, writeByte_length, hs, List.length_cons]
    omega

theorem displayText_pins_length (ds : List Nat) :
    (pinTrace
        ([Call.StartTransmision, Call.WriteByte 0x40, Call.SkipAck, Call.StopTransmision,
          Call.StartTransmision, Call.WriteByte 0xc0, Call.SkipAck]
          ++ ds.flatMap (fun d => [Call.WriteByte d, Call.SkipAck])
          ++ [Call.StopTransmision])).length = 136 + 54 * ds.length := by
  have h1 : StartTransmision.length = 6 := rfl
  have h2 : StopTransmision.length = 8 := rfl
  have h3 : SkipAck.length = 6 := rfl
  rw [pinTrace_append, pinTrace_append, List.length_append, List.length_append,
    data_pins_length]
  simp only [pinTrace, List.flatMap_cons, List.flatMap_nil, List.append_nil, Call.pins,
    List.length_append, writeByte_length, h1, h2, h3]
  omega

theorem forLoopPasses_small (width bound : Nat) (hw : 3 ≤ width) (hb : bound ≤ 4) :
    forLoopPasses width bound 5 0 = some bound := by
  have hp : 8 ≤ 2 ^ width := by
    calc 8 = 2 ^ 3 := rfl
      _ ≤ 2 ^ width := Nat.pow_le_pow_right (by decide) hw
  have e1 : (0 + 1) % 2 ^ width = 1 := Nat.mod_eq_of_lt (by omega)
  have e2 : (1 + 1) % 2 ^ width = 2 := Nat.mod_eq_of_lt (by omega)
  have e3 : (2 + 1) % 2 ^ width = 3 := Nat.mod_eq_of_lt (by omega)
  have e4 : (3 + 1) % 2 ^ width = 4 := Nat.mod_eq_of_lt (by omega)
  interval_cases bound <;> simp [forLoopPasses, e1, e2, e3, e4]

set_option maxRecDepth 8192 in
theorem flat_blank_or_core :
    ∀ idx, idx < 128 →
      Flat.ASCIIMap[idx]? = some 0 ∨ Flat.ASCIIMap[idx]? = Core.ASCIIMap[idx]? := by
  decide

theorem displayTextLoop_fault (var : Variant) (txt : List Nat) (sep : Bool) :
    ∀ n i, i ≤ txt.length → txt.length < i + n →
      ∃ j, DisplayTextLoop var.ASCIIMap txt sep n i = Except.error (Fault.txtOutOfBounds j)
  | 0, i, h1, h2 => by omega
  | n + 1, i, h1, h2 => by
    by_cases hi : i < txt.length
    · obtain ⟨c, -, hrt⟩ := readTxt_ok txt i hi
      obtain ⟨s, -, -, hrm⟩ := readMap_ok var c
      obtain ⟨j, hj⟩ := displayTextLoop_fault var txt sep n (i + 1) (by omega) (by omega)
      refine ⟨j, ?_⟩
      by_cases hcond : (i == 1 && sep) = true
      · simp [DisplayTextLoop, hrt, hrm, hj, hcond, bind, Except.bind, pure, Except.pure]
      · simp [DisplayTextLoop, hrt, hrm, hj, hcond, bind, Except.bind, pure, Except.pure]
    · have hnone : txt[i]? = none := List.getElem?_eq_none (by omega)
      have hrt : readTxt txt i = Except.error (Fault.txtOutOfBounds i) := by
        simp [readTxt, hnone]
      refine ⟨i, ?_⟩
      by_cases hcond : (i == 1 && sep) = true
      · simp [DisplayTextLoop, hrt, hcond, bind, Except.bind]
      · simp [DisplayTextLoop, hrt, hcond, bind, Except.bind]

theorem displayText_fault (var : Variant) (txt : List Nat) (len : Nat) (sep : Bool)
    (h : txt.length < min len 4) :
    ∃ j, TM1637DisplayText var.ASCIIMap txt len sep =
      Except.error (Fault.txtOutOfBounds j) := by
  have hb : (if len > 4 then 4 else len) = min len 4 := by
    split <;> omega
  obtain ⟨j, hj⟩ := displayTextLoop_fault var txt sep (min len 4) 0 (by omega) (by omega)
  exact ⟨j, by simp only [TM1637DisplayText, hb, hj, bind, Except.bind]⟩

theorem crowlLoop_fault (buf : List Nat) (charDelay : Nat) :
    ∀ n off, 1 ≤ n → buf.length < off + n + 3 →
      ∃ j, CrowlLoop buf charDelay n off = Except.error (Fault.txtOutOfBounds j)
  | 0, _, h1, _ => by omega
  | n + 1, off, _, h2 => by
    by_cases hw : (buf.drop off).length < 4
    · obtain ⟨j, hj⟩ := displayText_fault Variant.core (buf.drop off) 4 false (by simpa using hw)
      have hj' : TM1637DisplayText Core.ASCIIMap (buf.drop off) 4 false =
          Except.error (Fault.txtOutOfBounds j) := hj
      exact ⟨j, by simp only [CrowlLoop, hj', bind, Except.bind]⟩
    · have hlen : off + 4 ≤ buf.length := by
        simp only [List.length_drop] at hw
        omega
      obtain ⟨ds, heq, -, -⟩ := displayText_ok Variant.core (buf.drop off) 4 false
        (by simp only [List.length_drop]; omega)
      have heq' : TM1637DisplayText Core.ASCIIMap (buf.drop off) 4 false = Except.ok _ := heq
      obtain ⟨j, hj⟩ := crowlLoop_fault buf charDelay n (off + 1) (by omega) (by omega)
      exact ⟨j, by simp only [CrowlLoop, heq', hj, bind, Except.bind]⟩

theorem crowlLoop_ok (buf : List Nat) (charDelay : Nat) :
    ∀ n off, off + n + 3 ≤ buf.length →
      ∃ evs, CrowlLoop buf charDelay n off = Except.ok evs ∧ evs.length = 2 * n
  | 0, _, _ => ⟨[], rfl, rfl⟩
  | n + 1, off, h => by
    obtain ⟨ds, heq, -, -⟩ := displayText_ok Variant.core (buf.drop off) 4 false
      (by simp only [List.length_drop]; omega)
    have heq' : TM1637DisplayText Core.ASCIIMap (buf.drop off) 4 false = Except.ok _ := heq
    obtain ⟨evs, hev, hl⟩ := crowlLoop_ok buf charDelay n (off + 1) (by omega)
    have hstep : CrowlLoop buf charDelay (n + 1) off =
        Except.ok (CrowlEvent.display
          ([Call.StartTransmision, Call.WriteByte 0x40, Call.SkipAck, Call.StopTransmision,
            Call.StartTransmision, Call.WriteByte 0xc0, Call.SkipAck]
            ++ ds.flatMap (fun d => [Call.WriteByte d, Call.SkipAck])
            ++ [Call.StopTransmision]) :: CrowlEvent.halDelay charDelay :: evs) := by
      simp only [CrowlLoop, heq', hev, bind, Except.bind, pure, Except.pure]
    refine ⟨_, hstep, ?_⟩
    simp only [List.length_cons, hl]
    omega

theorem vsnprintf_result (BUF_LEN : Nat) (msg : List Nat) (h : 1 ≤ BUF_LEN) :
    (vsnprintf (arrayOfInit (BUF_LEN + 4) []) BUF_LEN msg).1.length = BUF_LEN + 4 ∧
    (vsnprintf (arrayOfInit (BUF_LEN + 4) []) BUF_LEN msg).2 = msg.length := by
  have h0 : ¬ BUF_LEN = 0 := by omega
  simp only [vsnprintf, h0, if_false]
  refine ⟨?_, trivial⟩
  simp [arrayOfInit]
  omega

/-! ## Verified properties -/

/-- C3: `WriteByte(b)` makes exactly 8 `WriteBit` calls, the i-th call (i = 0..7)
carries bit i of `b`, so bit 0 is emitted first and bit 7 last, its pin trace is
that of these 8 calls in order, and the 8 bits, reassembled least significant first,
give back `b`, for every byte `b` (0..255). -/
theorem writeByte_lsb_first (b : Nat) (hb : b < 256) :
    (WriteByteCalls b).length = 8 ∧
    (∀ i, i < 8 → (WriteByteCalls b)[i]? = some (decide (b / 2 ^ i % 2 = 1))) ∧
    WriteByteCalls b =
      [b.testBit 0, b.testBit 1, b.testBit 2, b.testBit 3,
       b.testBit 4, b.testBit 5, b.testBit 6, b.testBit 7] ∧
    WriteByte b = (List.range 8).flatMap (fun i => WriteBit (decide (b / 2 ^ i % 2 = 1))) ∧
    bitsValue (WriteByteCalls b) = b := by
  have hc : WriteByteCalls b = (List.range' 0 8).map (fun j => b.testBit j) :=
    writeByteLoop_eq b 8 0
  refine ⟨by simp [hc], ?_, by simp [hc, List.range'], ?_, ?_⟩
  · intro i hi
    rw [hc, ← Nat.testBit_to_div_mod]
    interval_cases i <;> rfl
  · rw [WriteByte, hc]
    simp [List.range', List.range, List.range.loop, List.flatMap, Nat.testBit_to_div_mod]
  · exact bitsValue_writeByteCalls b hb

theorem writeByte_lsb_first_witness :
    0xfc < 256 ∧
    WriteByteCalls 0xfc = [false, false, true, true, true, true, true, true] ∧
    bitsValue (WriteByteCalls 0xfc) = 0xfc :=
  ⟨by decide,
   (writeByte_lsb_first 0xfc (by decide)).2.2.1.trans (by decide),
   (writeByte_lsb_first 0xfc (by decide)).2.2.2.2⟩

/-- C1: for every buffer with at least min(len,4) readable entries, every length
and separator flag, and either table, `TM1637DisplayText` makes exactly the calls
Start, WriteByte(0x40), SkipAck, Stop, Start, WriteByte(0xC0), SkipAck, then
WriteByte(d_i), SkipAck for i = 0 .. min(len,4)-1 in order, and Stop, where d_i is
`ASCIIMap[txt[i] mod 128]`, OR-ed with 0x80 exactly when i = 1 and the separator flag
is set; 0x40 is in a frame of its own and 0xC0 shares one frame with the data bytes. -/
theorem displayText_call_sequence (var : Variant) (txt : List Nat) (len : Nat) (sep : Bool)
    (h : min len 4 ≤ txt.length) :
    ∃ d : List Nat,
      d.length = min len 4 ∧
      (∀ i, i < min len 4 → ∃ c s, txt[i]? = some c ∧ var.ASCIIMap[c % 128]? = some s ∧
        d[i]? = some (if i = 1 ∧ sep = true then s ||| 0x80 else s)) ∧
      TM1637DisplayText var.ASCIIMap txt len sep =
        Except.ok
          ([Call.StartTransmision, Call.WriteByte 0x40, Call.SkipAck, Call.StopTransmision,
            Call.StartTransmision, Call.WriteByte 0xc0, Call.SkipAck]
            ++ d.flatMap (fun x => [Call.WriteByte x, Call.SkipAck])
            ++ [Call.StopTransmision]) ∧
      TM1637DisplayText var.ASCIIMap txt len sep =
        Except.ok
          (frame [Call.WriteByte 0x40, Call.SkipAck]
            ++ frame ([Call.WriteByte 0xc0, Call.SkipAck]
                ++ d.flatMap (fun x => [Call.WriteByte x, Call.SkipAck]))) := by
  obtain ⟨ds, heq, hlen, hall⟩ := displayText_ok var txt len sep h
  refine ⟨ds, hlen, ?_, heq, ?_⟩
  · intro i hi
    obtain ⟨c, s, h1, h2, -, h4⟩ := hall i hi
    exact ⟨c, s, h1, h2, h4⟩
  · rw [heq]
    simp [frame]

set_option maxRecDepth 8192 in
theorem displayText_call_sequence_witness :
    (min 2 4 ≤ [65, 66].length ∧
      ∃ d : List Nat,
        d.length = min 2 4 ∧
        (∀ i, i < min 2 4 → ∃ c s, [65, 66][i]? = some c ∧
          Variant.core.ASCIIMap[c % 128]? = some s ∧
          d[i]? = some (if i = 1 ∧ true = true then s ||| 0x80 else s)) ∧
        TM1637DisplayText Variant.core.ASCIIMap [65, 66] 2 true =
          Except.ok
            ([Call.StartTransmision, Call.WriteByte 0x40, Call.SkipAck, Call.StopTransmision,
              Call.StartTransmision, Call.WriteByte 0xc0, Call.SkipAck]
              ++ d.flatMap (fun x => [Call.WriteByte x, Call.SkipAck])
              ++ [Call.StopTransmision]) ∧
        TM1637DisplayText Variant.core.ASCIIMap [65, 66] 2 true =
          Except.ok
            (frame [Call.WriteByte 0x40, Call.SkipAck]
              ++ frame ([Call.WriteByte 0xc0, Call.SkipAck]
                  ++ d.flatMap (fun x => [Call.WriteByte x, Call.SkipAck])))) ∧
    TM1637DisplayText Core.ASCIIMap [65, 66] 2 true =
      Except.ok
        [Call.StartTransmision, Call.WriteByte 0x40, Call.SkipAck, Call.StopTransmision,
         Call.StartTransmision, Call.WriteByte 0xc0, Call.SkipAck,
         Call.WriteByte 0x77, Call.SkipAck, Call.WriteByte 0xfc, Call.SkipAck,
         Call.StopTransmision] ∧
    TM1637DisplayText Flat.ASCIIMap [65, 66] 2 true =
      Except.ok
        [Call.StartTransmision, Call.WriteByte 0x40, Call.SkipAck, Call.StopTransmision,
         Call.StartTransmision, Call.WriteByte 0xc0, Call.SkipAck,
         Call.WriteByte 0x77, Call.SkipAck, Call.WriteByte 0xfc, Call.SkipAck,
         Call.StopTransmision] :=
  ⟨⟨by decide, displayText_call_sequence Variant.core [65, 66] 2 true (by decide)⟩,
   by rfl, by rfl⟩

/-- C2: for every 16-bit `v` and separator flag, `TM1637DisplayNumber(v, sep)` is
`TM1637DisplayText` with length 4 on the buffer of the four decimal digits of
`v mod 10000` as characters '0'..'9' (48..57), most significant first, leading zeros
kept; the call returns a trace. -/
theorem displayNumber_is_text_of_digits (var : Variant) (v : Nat) (sep : Bool)
    (hv : v < 65536) :
    TM1637DisplayNumber var.ASCIIMap v sep =
      TM1637DisplayText var.ASCIIMap
        [48 + v % 10000 / 1000, 48 + v % 10000 / 100 % 10,
         48 + v % 10000 / 10 % 10, 48 + v % 10000 % 10] 4 sep ∧
    (v % 10000 / 1000 ≤ 9 ∧ v % 10000 / 100 % 10 ≤ 9 ∧
      v % 10000 / 10 % 10 ≤ 9 ∧ v % 10000 % 10 ≤ 9) ∧
    v % 10000 =
      1000 * (v % 10000 / 1000) + 100 * (v % 10000 / 100 % 10)
        + 10 * (v % 10000 / 10 % 10) + v % 10000 % 10 ∧
    ∃ calls, TM1637DisplayNumber var.ASCIIMap v sep = Except.ok calls := by
  have hd := displayNumberLoop_digits v hv
  refine ⟨by rw [TM1637DisplayNumber, hd], ⟨by omega, by omega, by omega, by omega⟩,
    by omega, ?_⟩
  obtain ⟨ds, heq, -, -⟩ :=
    displayText_ok var (DisplayNumberLoop 4 0 v (arrayOfInit 4 [])) 4 sep (by simp [hd])
  exact ⟨_, heq⟩

theorem displayNumber_is_text_of_digits_witness :
    (12345 < 65536 ∧
      TM1637DisplayNumber Variant.core.ASCIIMap 12345 true =
        TM1637DisplayText Variant.core.ASCIIMap [50, 51, 52, 53] 4 true) ∧
    (42 < 65536 ∧
      TM1637DisplayNumber Variant.flat.ASCIIMap 42 false =
        TM1637DisplayText Variant.flat.ASCIIMap [48, 48, 52, 50] 4 false) :=
  ⟨⟨by decide, (displayNumber_is_text_of_digits Variant.core 12345 true (by decide)).1⟩,
   ⟨by decide, (displayNumber_is_text_of_digits Variant.flat 42 false (by decide)).1⟩⟩

/-- C7: for every 8-bit argument `br`, `TM1637SetBrightness(br)` makes exactly the
calls Start, WriteByte(br), SkipAck, Stop: one frame, holding exactly one byte, and
the byte put on the wire (its 8 bits, least significant first) equals `br`. -/
theorem setBrightness_single_frame (br : Nat) (hbr : br < 256) :
    TM1637SetBrightness br =
      [Call.StartTransmision, Call.WriteByte br, Call.SkipAck, Call.StopTransmision] ∧
    TM1637SetBrightness br = frame [Call.WriteByte br, Call.SkipAck] ∧
    bytesWritten (TM1637SetBrightness br) = [br] ∧
    pinTrace (TM1637SetBrightness br) =
      StartTransmision ++ WriteByte br ++ SkipAck ++ StopTransmision ∧
    bitsValue (WriteByteCalls br) = br := by
  refine ⟨rfl, rfl, rfl, ?_, bitsValue_writeByteCalls br hbr⟩
  simp [pinTrace, TM1637SetBrightness, Call.pins, List.flatMap]

theorem setBrightness_single_frame_witness :
    0x8a < 256 ∧
    TM1637SetBrightness 0x8a =
      [Call.StartTransmision, Call.WriteByte 0x8a, Call.SkipAck, Call.StopTransmision] ∧
    bytesWritten (TM1637SetBrightness 0x8a) = [0x8a] :=
  ⟨by decide, (setBrightness_single_frame 0x8a (by decide)).1,
   (setBrightness_single_frame 0x8a (by decide)).2.2.1⟩

/-- C10: `enum Brightness` has exactly 9 enumerators; their values are pairwise
distinct and are 0x87, 0x88, .., 0x8F in declaration order: `Disabled` is 0x87 and
`Brightness<k>` is 0x88 + k for k = 0..7. -/
theorem brightness_enum_values :
    BrightnessValues.length = 9 ∧
    BrightnessValues.map Prod.fst =
      [Brightness.Disabled, Brightness.Brightness0, Brightness.Brightness1,
       Brightness.Brightness2, Brightness.Brightness3, Brightness.Brightness4,
       Brightness.Brightness5, Brightness.Brightness6, Brightness.Brightness7] ∧
    BrightnessValues.map Prod.snd = List.range' 0x87 9 ∧
    (BrightnessValues.map Prod.snd).Nodup ∧
    Brightness.Disabled.val = some 0x87 ∧
    [Brightness.Brightness0.val, Brightness.Brightness1.val, Brightness.Brightness2.val,
     Brightness.Brightness3.val, Brightness.Brightness4.val, Brightness.Brightness5.val,
     Brightness.Brightness6.val, Brightness.Brightness7.val] =
      (List.range 8).map (fun k => some (0x88 + k)) ∧
    (∀ x : Brightness, ∃ v, x.val = some v ∧ 0x87 ≤ v ∧ v ≤ 0x8f) ∧
    (∀ x y : Brightness, x.val = y.val → x = y) := by
  refine ⟨by decide, by decide, by decide, by decide, by decide, by decide, ?_, ?_⟩
  · intro x
    cases x <;> exact ⟨_, rfl, by decide, by decide⟩
  · intro x y
    cases x <;> cases y <;> decide

/-- C4: bit 7 (0x80) of the i-th data byte sent by `TM1637DisplayText` is set if and
only if i = 1 and the separator flag is set. All 128 entries of `ASCIIMap` (either
source variant) have bit 7 clear; the data bytes at the other indices are the same
with the flag on and off; with `len < 2` no data byte carries the bit. -/
theorem separator_bit_only_at_index_one (var : Variant) (txt : List Nat) (len : Nat)
    (sep : Bool) (h : min len 4 ≤ txt.length) :
    (var.ASCIIMap.length = 128 ∧ ∀ s ∈ var.ASCIIMap, s &&& 0x80 = 0) ∧
    ∃ calls other,
      TM1637DisplayText var.ASCIIMap txt len sep = Except.ok calls ∧
      TM1637DisplayText var.ASCIIMap txt len (!sep) = Except.ok other ∧
      (dataBytes calls).length = min len 4 ∧
      (∀ i b, (dataBytes calls)[i]? = some b → (b &&& 0x80 ≠ 0 ↔ i = 1 ∧ sep = true)) ∧
      (∀ i, i ≠ 1 → (dataBytes other)[i]? = (dataBytes calls)[i]?) ∧
      (len < 2 → ∀ b ∈ dataBytes calls, b &&& 0x80 = 0) := by
  refine ⟨⟨variant_map_length var,
    fun s hs => (bit7_of_lt_128 s (variant_map_lt var s hs)).1⟩, ?_⟩
  obtain ⟨ds, heq, hlen, hall⟩ := displayText_ok var txt len sep h
  obtain ⟨ds', heq', hlen', hall'⟩ := displayText_ok var txt len (!sep) h
  have hbit : ∀ i b, ds[i]? = some b → (b &&& 0x80 ≠ 0 ↔ i = 1 ∧ sep = true) := by
    intro i b hb
    have hi : i < min len 4 := by
      have := (List.getElem?_eq_some_iff.mp hb).1
      omega
    obtain ⟨c, s, -, -, hs, hd⟩ := hall i hi
    have hbs : b = if i = 1 ∧ sep = true then s ||| 0x80 else s := by
      rw [hb] at hd
      exact Option.some.inj hd
    obtain ⟨h0, h1, -, -, -⟩ := bit7_of_lt_128 s hs
    by_cases hcond : i = 1 ∧ sep = true
    · simp only [hbs, if_pos hcond, h1]
      simp [hcond]
    · simp only [hbs, if_neg hcond, h0]
      simp [hcond]
  refine ⟨_, _, heq, heq', ?_, ?_, ?_, ?_⟩
  · rw [dataBytes_displayText, hlen]
  · rw [dataBytes_displayText]
    exact hbit
  · intro i hi1
    rw [dataBytes_displayText, dataBytes_displayText]
    by_cases hi : i < min len 4
    · obtain ⟨c, s, hc, hs, -, hd⟩ := hall i hi
      obtain ⟨c', s', hc', hs', -, hd'⟩ := hall' i hi
      have hcc : c' = c := Option.some.inj (hc'.symm.trans hc)
      subst hcc
      have hss : s' = s := Option.some.inj (hs'.symm.trans hs)
      subst hss
      rw [hd, hd']
      simp [hi1]
    · rw [List.getElem?_eq_none (by omega), List.getElem?_eq_none (by omega)]
  · intro hlt b hb
    rw [dataBytes_displayText] at hb
    obtain ⟨i, hi, hget⟩ := List.getElem_of_mem hb
    have hsome : ds[i]? = some b := by
      rw [List.getElem?_eq_getElem hi, hget]
    have hne : ¬ (i = 1 ∧ sep = true) := by
      intro hc
      omega
    by_contra hcon
    exact hne ((hbit i b hsome).mp hcon)

set_option maxRecDepth 8192 in
theorem separator_bit_only_at_index_one_witness :
    (min 4 4 ≤ [56, 56, 56, 56].length ∧
      ((Variant.core.ASCIIMap.length = 128 ∧ ∀ s ∈ Variant.core.ASCIIMap, s &&& 0x80 = 0) ∧
      ∃ calls other,
        TM1637DisplayText Variant.core.ASCIIMap [56, 56, 56, 56] 4 true = Except.ok calls ∧
        TM1637DisplayText Variant.core.ASCIIMap [56, 56, 56, 56] 4 (!true) =
          Except.ok other ∧
        (dataBytes calls).length = min 4 4 ∧
        (∀ i b, (dataBytes calls)[i]? = some b →
          (b &&& 0x80 ≠ 0 ↔ i = 1 ∧ true = true)) ∧
        (∀ i, i ≠ 1 → (dataBytes other)[i]? = (dataBytes calls)[i]?) ∧
        (4 < 2 → ∀ b ∈ dataBytes calls, b &&& 0x80 = 0))) ∧
    TM1637DisplayText Core.ASCIIMap [56, 56, 56, 56] 4 true =
      Except.ok
        [Call.StartTransmision, Call.WriteByte 0x40, Call.SkipAck, Call.StopTransmision,
         Call.StartTransmision, Call.WriteByte 0xc0, Call.SkipAck,
         Call.WriteByte 0x7f, Call.SkipAck, Call.WriteByte 0xff, Call.SkipAck,
         Call.WriteByte 0x7f, Call.SkipAck, Call.WriteByte 0x7f, Call.SkipAck,
         Call.StopTransmision] :=
  ⟨⟨by decide,
    separator_bit_only_at_index_one Variant.core [56, 56, 56, 56] 4 true (by decide)⟩,
   by rfl⟩

/-- C5: `TM1637DisplayText` sends exactly min(len,4) data bytes and reads only
`txt[0] .. txt[min(len,4)-1]`: on a buffer with that many readable entries (so also
on one of exactly `len` entries) no read fails; buffers that agree on these entries
give the same result; for `len > 4` the result is that for `len = 4` on the first
4 entries; for `len = 0` only the command bytes 0x40 and 0xC0 are sent. -/
theorem displayText_reads_min_len_four (var : Variant) (txt : List Nat) (len : Nat)
    (sep : Bool) (h : min len 4 ≤ txt.length) :
    (∃ calls, TM1637DisplayText var.ASCIIMap txt len sep = Except.ok calls ∧
      (dataBytes calls).length = min len 4) ∧
    (∃ calls, TM1637DisplayText var.ASCIIMap (txt.take (min len 4)) len sep =
      Except.ok calls) ∧
    (∀ txt' : List Nat, txt'.take (min len 4) = txt.take (min len 4) →
      TM1637DisplayText var.ASCIIMap txt' len sep =
        TM1637DisplayText var.ASCIIMap txt len sep) ∧
    (4 < len →
      TM1637DisplayText var.ASCIIMap txt len sep =
        TM1637DisplayText var.ASCIIMap (txt.take 4) 4 sep) ∧
    (len = 0 →
      TM1637DisplayText var.ASCIIMap txt len sep =
        Except.ok
          [Call.StartTransmision, Call.WriteByte 0x40, Call.SkipAck, Call.StopTransmision,
           Call.StartTransmision, Call.WriteByte 0xc0, Call.SkipAck,
           Call.StopTransmision]) := by
  have hb : (if len > 4 then 4 else len) = min len 4 := by
    split <;> omega
  obtain ⟨ds, heq, hlen, -⟩ := displayText_ok var txt len sep h
  refine ⟨⟨_, heq, by rw [dataBytes_displayText, hlen]⟩, ?_, ?_, ?_, ?_⟩
  · obtain ⟨ds', heq', -, -⟩ :=
      displayText_ok var (txt.take (min len 4)) len sep (by simp; omega)
    exact ⟨_, heq'⟩
  · intro txt' ht
    apply displayText_congr
    intro k hk
    have h1 : (txt'.take (min len 4))[k]? = txt'[k]? := by
      rw [List.getElem?_take, if_pos hk]
    have h2 : (txt.take (min len 4))[k]? = txt[k]? := by
      rw [List.getElem?_take, if_pos hk]
    rw [← h1, ← h2, ht]
  · intro h4
    have hm : min len 4 = 4 := by omega
    have hl := displayTextLoop_congr var.ASCIIMap txt (txt.take 4) sep 4 0
      (fun k _ h2 => by rw [List.getElem?_take, if_pos (by omega)])
    have h44 : (if 4 > 4 then 4 else 4) = 4 := rfl
    simp only [TM1637DisplayText, hb, hm, h44, hl]
  · intro h0
    subst h0
    simp [TM1637DisplayText, DisplayTextLoop, bind, Except.bind, pure, Except.pure]

set_option maxRecDepth 8192 in
theorem displayText_reads_min_len_four_witness :
    (min 3 4 ≤ [72, 105, 33].length ∧
      ∃ calls, TM1637DisplayText Variant.core.ASCIIMap [72, 105, 33] 3 false =
        Except.ok calls ∧ (dataBytes calls).length = min 3 4) ∧
    (min 6 4 ≤ [49, 50, 51, 52, 53, 54].length ∧
      ((4 < 6 →
        TM1637DisplayText Variant.flat.ASCIIMap [49, 50, 51, 52, 53, 54] 6 true =
          TM1637DisplayText Variant.flat.ASCIIMap ([49, 50, 51, 52, 53, 54].take 4) 4 true))) ∧
    TM1637DisplayText Core.ASCIIMap [72, 105, 33] 3 false =
      Except.ok
        [Call.StartTransmision, Call.WriteByte 0x40, Call.SkipAck, Call.StopTransmision,
         Call.StartTransmision, Call.WriteByte 0xc0, Call.SkipAck,
         Call.WriteByte 0x76, Call.SkipAck, Call.WriteByte 0x04, Call.SkipAck,
         Call.WriteByte 0x00, Call.SkipAck,
         Call.StopTransmision] ∧
    TM1637DisplayText Core.ASCIIMap [72, 105] 3 false =
      Except.error (Fault.txtOutOfBounds 2) :=
  ⟨⟨by decide,
    (displayText_reads_min_len_four Variant.core [72, 105, 33] 3 false (by decide)).1⟩,
   ⟨by decide,
    (displayText_reads_min_len_four Variant.flat [49, 50, 51, 52, 53, 54] 6 true
      (by decide)).2.2.2.1⟩,
   by rfl, by rfl⟩

/-- C6: the table index `c & 127` computed by `TM1637DisplayText` equals `c mod 128`
and is below 128, so the lookup never leaves the 128-entry table; the data byte sent
for a character code `c` is, separator bit aside, `ASCIIMap[c mod 128]`: the
tabulated entry itself for `c` in 0..127, and for larger codes the byte of their low
7 bits. -/
theorem displayText_masks_code_to_seven_bits (var : Variant) (txt : List Nat) (len : Nat)
    (sep : Bool) (h : min len 4 ≤ txt.length) :
    (∀ c : Nat, c &&& 127 = c % 128 ∧ c % 128 < var.ASCIIMap.length ∧
      ∃ s, readMap var.ASCIIMap (c &&& 127) = Except.ok s ∧
        var.ASCIIMap[c % 128]? = some s) ∧
    ∃ calls,
      TM1637DisplayText var.ASCIIMap txt len sep = Except.ok calls ∧
      (∀ i, i < min len 4 → ∃ c s b,
        txt[i]? = some c ∧ var.ASCIIMap[c % 128]? = some s ∧
        (c < 128 → var.ASCIIMap[c]? = some s) ∧
        (dataBytes calls)[i]? = some b ∧ b &&& 127 = s ∧
        (¬ (i = 1 ∧ sep = true) → b = s)) ∧
      TM1637DisplayText var.ASCIIMap (txt.map (fun c => c % 128)) len sep =
        Except.ok calls := by
  refine ⟨?_, ?_⟩
  · intro c
    obtain ⟨s, hs, -, hr⟩ := readMap_ok var c
    exact ⟨land_127 c, by rw [variant_map_length]; exact Nat.mod_lt _ (by decide),
      s, hr, hs⟩
  · obtain ⟨ds, heq, hlen, hall⟩ := displayText_ok var txt len sep h
    obtain ⟨ds', heq', hlen', hall'⟩ :=
      displayText_ok var (txt.map (fun c => c % 128)) len sep (by simpa using h)
    refine ⟨_, heq, ?_, ?_⟩
    · intro i hi
      obtain ⟨c, s, hc, hs, hlt, hd⟩ := hall i hi
      obtain ⟨-, -, -, h3, h4⟩ := bit7_of_lt_128 s hlt
      refine ⟨c, s, _, hc, hs, ?_, by rw [dataBytes_displayText]; exact hd, ?_, ?_⟩
      · intro hc128
        rw [← hs, Nat.mod_eq_of_lt hc128]
      · split
        · exact h3
        · exact h4
      · intro hn
        rw [if_neg hn]
    · have hds : ds' = ds := by
        apply List.ext_getElem?
        intro i
        by_cases hi : i < min len 4
        · obtain ⟨c, s, hc, hs, -, hd⟩ := hall i hi
          obtain ⟨c', s', hc', hs', -, hd'⟩ := hall' i hi
          have hcc : c' = c % 128 := by
            rw [List.getElem?_map, hc] at hc'
            exact (Option.some.inj hc').symm
          have hss : s' = s := by
            rw [hcc, Nat.mod_mod] at hs'
            exact Option.some.inj (hs'.symm.trans hs)
          rw [hd, hd', hss]
        · rw [List.getElem?_eq_none (by omega), List.getElem?_eq_none (by omega)]
      rw [heq', hds]

set_option maxRecDepth 8192 in
theorem displayText_masks_code_to_seven_bits_witness :
    (min 2 4 ≤ [65, 193].length ∧
      ∃ calls,
        TM1637DisplayText Variant.core.ASCIIMap [65, 193] 2 false = Except.ok calls ∧
        (∀ i, i < min 2 4 → ∃ c s b,
          [65, 193][i]? = some c ∧ Variant.core.ASCIIMap[c % 128]? = some s ∧
          (c < 128 → Variant.core.ASCIIMap[c]? = some s) ∧
          (dataBytes calls)[i]? = some b ∧ b &&& 127 = s ∧
          (¬ (i = 1 ∧ false = true) → b = s)) ∧
        TM1637DisplayText Variant.core.ASCIIMap ([65, 193].map (fun c => c % 128)) 2 false =
          Except.ok calls) ∧
    TM1637DisplayText Core.ASCIIMap [65, 193] 2 false =
      Except.ok
        [Call.StartTransmision, Call.WriteByte 0x40, Call.SkipAck, Call.StopTransmision,
         Call.StartTransmision, Call.WriteByte 0xc0, Call.SkipAck,
         Call.WriteByte 0x77, Call.SkipAck, Call.WriteByte 0x77, Call.SkipAck,
         Call.StopTransmision] :=
  ⟨⟨by decide,
    (displayText_masks_code_to_seven_bits Variant.core [65, 193] 2 false (by decide)).2⟩,
   by rfl⟩

/-- C8: in the call trace of `TM1637SetBrightness`, `TM1637DisplayText` and
`TM1637DisplayNumber`, starts and stops strictly alternate, beginning with a start
and ending with a stop, never nested: the trace is one frame (brightness) or two
frames one after the other (text, number), and every `WriteByte` and `SkipAck` lies
inside a frame. -/
theorem start_stop_bracketing (var : Variant) (txt : List Nat) (len : Nat) (sep : Bool)
    (v br : Nat) (h : min len 4 ≤ txt.length) (hv : v < 65536) :
    (∃ p, TM1637SetBrightness br = frame p ∧ p.all Call.isPayload = true ∧
      countFrames false (TM1637SetBrightness br) = some 1) ∧
    (∃ calls p q,
      TM1637DisplayText var.ASCIIMap txt len sep = Except.ok calls ∧
      calls = frame p ++ frame q ∧
      p.all Call.isPayload = true ∧ q.all Call.isPayload = true ∧
      countFrames false calls = some 2) ∧
    (∃ calls p q,
      TM1637DisplayNumber var.ASCIIMap v sep = Except.ok calls ∧
      calls = frame p ++ frame q ∧
      p.all Call.isPayload = true ∧ q.all Call.isPayload = true ∧
      countFrames false calls = some 2) := by
  refine ⟨⟨[Call.WriteByte br, Call.SkipAck], rfl, rfl, rfl⟩,
    displayText_two_frames var txt len sep h, ?_⟩
  have hd := displayNumberLoop_digits v hv
  exact displayText_two_frames var (DisplayNumberLoop 4 0 v (arrayOfInit 4 [])) 4 sep
    (by simp [hd])

set_option maxRecDepth 8192 in
theorem start_stop_bracketing_witness :
    (min 4 4 ≤ [49, 50, 51, 52].length ∧ 1234 < 65536 ∧
      ((∃ p, TM1637SetBrightness 0x8f = frame p ∧ p.all Call.isPayload = true ∧
        countFrames false (TM1637SetBrightness 0x8f) = some 1) ∧
      (∃ calls p q,
        TM1637DisplayText Variant.core.ASCIIMap [49, 50, 51, 52] 4 true = Except.ok calls ∧
        calls = frame p ++ frame q ∧
        p.all Call.isPayload = true ∧ q.all Call.isPayload = true ∧
        countFrames false calls = some 2) ∧
      (∃ calls p q,
        TM1637DisplayNumber Variant.core.ASCIIMap 1234 true = Except.ok calls ∧
        calls = frame p ++ frame q ∧
        p.all Call.isPayload = true ∧ q.all Call.isPayload = true ∧
        countFrames false calls = some 2))) ∧
    countFrames false
      [Call.StartTransmision, Call.WriteByte 1, Call.StartTransmision,
       Call.StopTransmision] = none ∧
    countFrames false [Call.StartTransmision, Call.StopTransmision, Call.SkipAck] = none ∧
    countFrames false [Call.StartTransmision, Call.WriteByte 1] = none :=
  ⟨⟨by decide, by decide,
    start_stop_bracketing Variant.core [49, 50, 51, 52] 4 true 1234 0x8f
      (by decide) (by decide)⟩,
   by rfl, by rfl, by rfl⟩

/-- C9: for every 16-bit `v`, the four data bytes of `TM1637DisplayNumber(v, false)`
are the seven-segment patterns of the thousands, hundreds, tens and units digits of
`v mod 10000`, in this order; with the separator on only the second byte differs,
by 0x80. This holds for the table of either source variant. -/
theorem displayNumber_segment_bytes (var : Variant) (v : Nat) (hv : v < 65536) :
    ∃ s3 s2 s1 s0 calls callsSep,
      digitSegments[v % 10000 / 1000]? = some s3 ∧
      digitSegments[v % 10000 / 100 % 10]? = some s2 ∧
      digitSegments[v % 10000 / 10 % 10]? = some s1 ∧
      digitSegments[v % 10000 % 10]? = some s0 ∧
      TM1637DisplayNumber var.ASCIIMap v false = Except.ok calls ∧
      dataBytes calls = [s3, s2, s1, s0] ∧
      TM1637DisplayNumber var.ASCIIMap v true = Except.ok callsSep ∧
      dataBytes callsSep = [s3, s2 + 0x80, s1, s0] := by
  have hd := displayNumberLoop_digits v hv
  have key : ∀ sep : Bool, ∀ k d, k < 4 →
      [48 + v % 10000 / 1000, 48 + v % 10000 / 100 % 10,
        48 + v % 10000 / 10 % 10, 48 + v % 10000 % 10][k]? = some (48 + d) → d < 10 →
      ∀ ds : List Nat,
      (∀ k, k < min 4 4 → ∃ c s,
        [48 + v % 10000 / 1000, 48 + v % 10000 / 100 % 10,
          48 + v % 10000 / 10 % 10, 48 + v % 10000 % 10][k]? = some c ∧
        var.ASCIIMap[c % 128]? = some s ∧ s < 128 ∧
        ds[k]? = some (if k = 1 ∧ sep = true then s ||| 0x80 else s)) →
      ∃ s, digitSegments[d]? = some s ∧ s < 128 ∧
        ds[k]? = some (if k = 1 ∧ sep = true then s ||| 0x80 else s) := by
    intro sep k d hk hkd hd10 ds hall
    obtain ⟨c, s, hc, hs, hlt, hds⟩ := hall k (by simpa using hk)
    have hcd : c = 48 + d := Option.some.inj (hc.symm.trans hkd)
    subst hcd
    rw [digit_lookup var d hd10] at hs
    exact ⟨s, hs, hlt, hds⟩
  obtain ⟨ds, heq, hlen, hall⟩ := displayText_ok var
    [48 + v % 10000 / 1000, 48 + v % 10000 / 100 % 10,
      48 + v % 10000 / 10 % 10, 48 + v % 10000 % 10] 4 false (by simp)
  obtain ⟨dt, heqt, hlent, hallt⟩ := displayText_ok var
    [48 + v % 10000 / 1000, 48 + v % 10000 / 100 % 10,
      48 + v % 10000 / 10 % 10, 48 + v % 10000 % 10] 4 true (by simp)
  obtain ⟨s3, g3, l3, f3⟩ := key false 0 _ (by decide) rfl (by omega) ds hall
  obtain ⟨s2, g2, l2, f2⟩ := key false 1 _ (by decide) rfl (by omega) ds hall
  obtain ⟨s1, g1, l1, f1⟩ := key false 2 _ (by decide) rfl (by omega) ds hall
  obtain ⟨s0, g0, l0, f0⟩ := key false 3 _ (by decide) rfl (by omega) ds hall
  obtain ⟨t3, u3, -, e3⟩ := key true 0 _ (by decide) rfl (by omega) dt hallt
  obtain ⟨t2, u2, -, e2⟩ := key true 1 _ (by decide) rfl (by omega) dt hallt
  obtain ⟨t1, u1, -, e1⟩ := key true 2 _ (by decide) rfl (by omega) dt hallt
  obtain ⟨t0, u0, -, e0⟩ := key true 3 _ (by decide) rfl (by omega) dt hallt
  have h3 : t3 = s3 := Option.some.inj (u3.symm.trans g3)
  have h2 : t2 = s2 := Option.some.inj (u2.symm.trans g2)
  have h1 : t1 = s1 := Option.some.inj (u1.symm.trans g1)
  have h0 : t0 = s0 := Option.some.inj (u0.symm.trans g0)
  subst h3 h2 h1 h0
  have hor : t2 ||| 0x80 = t2 + 0x80 := (bit7_of_lt_128 t2 l2).2.2.1
  have hds : ds = [t3, t2, t1, t0] := by
    match ds, hlen with
    | [a, b, c, d], _ =>
      simp at f3 f2 f1 f0
      simp [f3, f2, f1, f0]
  have hdt : dt = [t3, t2 + 0x80, t1, t0] := by
    match dt, hlent with
    | [a, b, c, d], _ =>
      simp at e3 e2 e1 e0
      simp [e3, e2, e1, e0, ← hor]
  have hn := heq
  have hnt := heqt
  rw [← hd] at hn hnt
  exact ⟨t3, t2, t1, t0, _, _, g3, g2, g1, g0,
    hn, by rw [dataBytes_displayText, hds], hnt, by rw [dataBytes_displayText, hdt]⟩

set_option maxRecDepth 8192 in
theorem displayNumber_segment_bytes_witness :
    (42 < 65536 ∧
      ∃ s3 s2 s1 s0 calls callsSep,
        digitSegments[42 % 10000 / 1000]? = some s3 ∧
        digitSegments[42 % 10000 / 100 % 10]? = some s2 ∧
        digitSegments[42 % 10000 / 10 % 10]? = some s1 ∧
        digitSegments[42 % 10000 % 10]? = some s0 ∧
        TM1637DisplayNumber Variant.flat.ASCIIMap 42 false = Except.ok calls ∧
        dataBytes calls = [s3, s2, s1, s0] ∧
        TM1637DisplayNumber Variant.flat.ASCIIMap 42 true = Except.ok callsSep ∧
        dataBytes callsSep = [s3, s2 + 0x80, s1, s0]) ∧
    TM1637DisplayNumber Core.ASCIIMap 42 false =
      Except.ok
        [Call.StartTransmision, Call.WriteByte 0x40, Call.SkipAck, Call.StopTransmision,
         Call.StartTransmision, Call.WriteByte 0xc0, Call.SkipAck,
         Call.WriteByte 0x3f, Call.SkipAck, Call.WriteByte 0x3f, Call.SkipAck,
         Call.WriteByte 0x66, Call.SkipAck, Call.WriteByte 0x5b, Call.SkipAck,
         Call.StopTransmision] ∧
    TM1637DisplayNumber Flat.ASCIIMap 42 false =
      Except.ok
        [Call.StartTransmision, Call.WriteByte 0x40, Call.SkipAck, Call.StopTransmision,
         Call.StartTransmision, Call.WriteByte 0xc0, Call.SkipAck,
         Call.WriteByte 0x3f, Call.SkipAck, Call.WriteByte 0x3f, Call.SkipAck,
         Call.WriteByte 0x66, Call.SkipAck, Call.WriteByte 0x5b, Call.SkipAck,
         Call.StopTransmision] ∧
    TM1637DisplayNumber Core.ASCIIMap 42 true =
      Except.ok
        [Call.StartTransmision, Call.WriteByte 0x40, Call.SkipAck, Call.StopTransmision,
         Call.StartTransmision, Call.WriteByte 0xc0, Call.SkipAck,
         Call.WriteByte 0x3f, Call.SkipAck, Call.WriteByte 0xbf, Call.SkipAck,
         Call.WriteByte 0x66, Call.SkipAck, Call.WriteByte 0x5b, Call.SkipAck,
         Call.StopTransmision] :=
  ⟨⟨by decide, displayNumber_segment_bytes Variant.flat 42 (by decide)⟩,
   by rfl, by rfl, by rfl⟩

/-- C11, as stated, fails: the call `TM1637SetBrightness(Brightness3)` does not send the
byte 0x87 + 3 = 0x8A; it sends 0x8B. -/
theorem brightness3_byte_not_0x8a :
    TM1637SetBrightnessOf Brightness.Brightness3 =
      some [Call.StartTransmision, Call.WriteByte 0x8b, Call.SkipAck, Call.StopTransmision] ∧
    TM1637SetBrightnessOf Brightness.Brightness3 ≠
      some [Call.StartTransmision, Call.WriteByte (0x87 + 3), Call.SkipAck,
        Call.StopTransmision] := by
  decide

/-- C11, amended: the call `TM1637SetBrightness(Brightness3)` emits exactly one framed
byte, and that byte is 0x88 + 3 = 0x8B, the 5th value of the brightness command
range 0x87..0x8F; the 4th value, 0x87 + 3 = 0x8A, is the byte of `Brightness2`. -/
theorem brightness3_sends_0x8b :
    Brightness.Brightness3.val = some (0x88 + 3) ∧
    TM1637SetBrightnessOf Brightness.Brightness3 =
      some (frame [Call.WriteByte 0x8b, Call.SkipAck]) ∧
    (TM1637SetBrightnessOf Brightness.Brightness3).map bytesWritten = some [0x8b] ∧
    (TM1637SetBrightnessOf Brightness.Brightness3).map (countFrames false) =
      some (some 1) ∧
    (BrightnessValues.map Prod.snd)[4]? = some 0x8b ∧
    (BrightnessValues.map Prod.snd)[3]? = some (0x87 + 3) ∧
    Brightness.Brightness2.val = some (0x87 + 3) ∧
    bitsValue (WriteByteCalls 0x8b) = 0x8b := by
  decide

/-- C12, as stated, fails: for the 8-bit argument 0x40 the command byte sent by
`TM1637SetBrightness` is 0x40, which is not in 0x87..0x8F. -/
theorem setBrightness_does_not_clamp :
    0x40 < 256 ∧
    bytesWritten (TM1637SetBrightness 0x40) = [0x40] ∧
    ¬ (0x87 ≤ 0x40 ∧ 0x40 ≤ 0x8f) ∧
    ¬ (∀ br, br < 256 → ∀ b ∈ bytesWritten (TM1637SetBrightness br), 0x87 ≤ b ∧ b ≤ 0x8f) := by
  refine ⟨by decide, rfl, by decide, ?_⟩
  intro h
  have h1 := h 0x40 (by decide) 0x40 (by simp [TM1637SetBrightness, bytesWritten])
  omega

/-- C12, amended: `TM1637SetBrightness` neither clamps nor signals an error: for every
8-bit argument `br` the single command byte it sends is `br` itself, so it is one
of the brightness command bytes 0x87..0x8F exactly when `br` is. -/
theorem setBrightness_sends_argument_unchanged (br : Nat) (hbr : br < 256) :
    TM1637SetBrightness br = frame [Call.WriteByte br, Call.SkipAck] ∧
    bytesWritten (TM1637SetBrightness br) = [br] ∧
    bitsValue (WriteByteCalls br) = br ∧
    ((∀ b ∈ bytesWritten (TM1637SetBrightness br), 0x87 ≤ b ∧ b ≤ 0x8f) ↔
      (0x87 ≤ br ∧ br ≤ 0x8f)) := by
  refine ⟨rfl, rfl, bitsValue_writeByteCalls br hbr, ?_⟩
  simp [TM1637SetBrightness, bytesWritten]

theorem setBrightness_sends_argument_unchanged_witness :
    0xff < 256 ∧
    bytesWritten (TM1637SetBrightness 0xff) = [0xff] ∧
    bitsValue (WriteByteCalls 0xff) = 0xff :=
  ⟨by decide, (setBrightness_sends_argument_unchanged 0xff (by decide)).2.1,
   (setBrightness_sends_argument_unchanged 0xff (by decide)).2.2.1⟩

/-- C13 fails on the code for pins 8..15: `TM1637Init(GPIOA, GPIOA, 8, 9)` stores
`gClkPin = 0` and `gDioPin = 0`, because `1 << pin` is stored in a `uint8_t`; the
masks are 2^pin only for pins 0..7. -/
theorem init_masks_vanish_from_pin_8 :
    TM1637Init 0 0 8 9 =
      some ({ gClkPort := 0, gDioPort := 0, gClkPin := 0, gDioPin := 0 }, [(0, 0), (0, 0)]) ∧
    TM1637Init 0 0 1 2 =
      some ({ gClkPort := 0, gDioPort := 0, gClkPin := 2, gDioPin := 4 }, [(0, 2), (0, 4)]) ∧
    (∀ c d : Fin 16, ∃ g pins,
      TM1637Init 0 0 c.val d.val = some (g, pins) ∧
      g.gClkPin = (if c.val < 8 then 2 ^ c.val else 0) ∧
      g.gDioPin = (if d.val < 8 then 2 ^ d.val else 0)) := by
  refine ⟨by decide, by decide, ?_⟩
  intro c d
  have hc : c.val < 31 := by omega
  have hd : d.val < 31 := by omega
  have e : TM1637Init 0 0 c.val d.val =
      some ({ gClkPort := 0, gDioPort := 0, gClkPin := 1 <<< c.val % 256,
              gDioPin := 1 <<< d.val % 256 },
            [(0, 1 <<< c.val % 256), (0, 1 <<< d.val % 256)]) := by
    simp [TM1637Init, shiftOne, hc, hd]
  have hmask : ∀ p : Fin 16, 1 <<< p.val % 256 = (if p.val < 8 then 2 ^ p.val else 0) := by
    decide
  exact ⟨_, _, e, hmask c, hmask d⟩

/-- C14: in both tables the entries of an upper-case letter and of its lower-case
letter are equal, `ASCIIMap['A' + k] = ASCIIMap['a' + k]` for k = 0..25, and so
`TM1637DisplayText` gives the same trace for a text and for that text with the case
of any of its letters changed. -/
theorem letter_case_same_pattern (var : Variant) (txt : List Nat) (len : Nat) (sep : Bool)
    (change : Nat → Bool) (h : min len 4 ≤ txt.length) :
    (∀ k, k < 26 → ∃ s, var.ASCIIMap[65 + k]? = some s ∧ var.ASCIIMap[97 + k]? = some s) ∧
    TM1637DisplayText var.ASCIIMap (changeCase change txt) len sep =
      TM1637DisplayText var.ASCIIMap txt len sep ∧
    ∃ calls, TM1637DisplayText var.ASCIIMap txt len sep = Except.ok calls := by
  refine ⟨?_, ?_, ?_⟩
  · intro k hk
    have hlt : 65 + k < var.ASCIIMap.length := by
      rw [variant_map_length]; omega
    exact ⟨var.ASCIIMap[65 + k], List.getElem?_eq_getElem hlt,
      by rw [case_lookup var k hk]; exact List.getElem?_eq_getElem hlt⟩
  · apply displayText_eq_of_lookup_eq var var txt (changeCase change txt) len sep h
    · simpa [changeCase] using h
    · intro i c c' _ hc hc'
      simp only [changeCase, List.getElem?_mapIdx, hc, Option.map_some'] at hc'
      have e : c' = if change i then swapCase c else c := (Option.some.inj hc').symm
      rw [e]
      split
      · exact swapCase_lookup var c
      · rfl
  · obtain ⟨ds, heq, -, -⟩ := displayText_ok var txt len sep h
    exact ⟨_, heq⟩

set_option maxRecDepth 8192 in
theorem letter_case_same_pattern_witness :
    (min 4 4 ≤ [72, 101, 76, 111].length ∧
      TM1637DisplayText Variant.core.ASCIIMap
          (changeCase (fun i => i == 1 || i == 2) [72, 101, 76, 111]) 4 false =
        TM1637DisplayText Variant.core.ASCIIMap [72, 101, 76, 111] 4 false) ∧
    changeCase (fun i => i == 1 || i == 2) [72, 101, 76, 111] = [72, 69, 108, 111] ∧
    TM1637DisplayText Core.ASCIIMap [72, 69, 108, 111] 4 false =
      Except.ok
        [Call.StartTransmision, Call.WriteByte 0x40, Call.SkipAck, Call.StopTransmision,
         Call.StartTransmision, Call.WriteByte 0xc0, Call.SkipAck,
         Call.WriteByte 0x76, Call.SkipAck, Call.WriteByte 0x79, Call.SkipAck,
         Call.WriteByte 0x38, Call.SkipAck, Call.WriteByte 0x5c, Call.SkipAck,
         Call.StopTransmision] ∧
    TM1637DisplayText Core.ASCIIMap [72, 101, 76, 111] 4 false =
      Except.ok
        [Call.StartTransmision, Call.WriteByte 0x40, Call.SkipAck, Call.StopTransmision,
         Call.StartTransmision, Call.WriteByte 0xc0, Call.SkipAck,
         Call.WriteByte 0x76, Call.SkipAck, Call.WriteByte 0x79, Call.SkipAck,
         Call.WriteByte 0x38, Call.SkipAck, Call.WriteByte 0x5c, Call.SkipAck,
         Call.StopTransmision] :=
  ⟨⟨by decide,
    (letter_case_same_pattern Variant.core [72, 101, 76, 111] 4 false
      (fun i => i == 1 || i == 2) (by decide)).2.1⟩,
   by simp [changeCase, swapCase], by rfl, by rfl⟩

/-- C15: `StopTransmision` leaves both lines high whatever their levels were, and so
do `TM1637SetBrightness`, `TM1637DisplayText` and `TM1637DisplayNumber`: for every
initial level of the two lines and all inputs, when the call returns the level last
written to the clock line is high and the level last written to the data line is
high. -/
theorem lines_idle_high_on_return (var : Variant) (txt : List Nat) (len : Nat) (sep : Bool)
    (v br : Nat) (s : Lines) (h : min len 4 ≤ txt.length) (hv : v < 65536) :
    runPins s StopTransmision = Lines.idle ∧
    runPins s (pinTrace (TM1637SetBrightness br)) = { clk := true, dio := true } ∧
    (∃ calls, TM1637DisplayText var.ASCIIMap txt len sep = Except.ok calls ∧
      runPins s (pinTrace calls) = { clk := true, dio := true }) ∧
    (∃ calls, TM1637DisplayNumber var.ASCIIMap v sep = Except.ok calls ∧
      runPins s (pinTrace calls) = { clk := true, dio := true }) := by
  refine ⟨run_stop s, run_frame [Call.WriteByte br, Call.SkipAck] s, ?_, ?_⟩
  · obtain ⟨calls, p, q, heq, hc, -, -, -⟩ := displayText_two_frames var txt len sep h
    exact ⟨calls, heq, by rw [hc]; exact run_two_frames p q s⟩
  · obtain ⟨calls, p, q, heq, hc, -, -, -⟩ := displayNumber_two_frames var v sep hv
    exact ⟨calls, heq, by rw [hc]; exact run_two_frames p q s⟩

theorem lines_idle_high_on_return_witness :
    min 2 4 ≤ [65, 66].length ∧ 42 < 65536 ∧
    runPins { clk := false, dio := false } StopTransmision = Lines.idle ∧
    runPins { clk := false, dio := false } (pinTrace (TM1637SetBrightness 0x8a)) =
      { clk := true, dio := true } ∧
    (∃ calls, TM1637DisplayText Variant.core.ASCIIMap [65, 66] 2 true = Except.ok calls ∧
      runPins { clk := false, dio := false } (pinTrace calls) = { clk := true, dio := true }) ∧
    (∃ calls, TM1637DisplayNumber Variant.core.ASCIIMap 42 true = Except.ok calls ∧
      runPins { clk := false, dio := false } (pinTrace calls) = { clk := true, dio := true }) :=
  ⟨by decide, by decide,
   lines_idle_high_on_return Variant.core [65, 66] 2 true 42 0x8a
     { clk := false, dio := false } (by decide) (by decide)⟩

/-- C16: in the pin trace of `TM1637SetBrightness`, `TM1637DisplayText` and
`TM1637DisplayNumber`, for all inputs, every write to the clock or data pin is
followed at once by exactly one delay of 2 (`PinDelay`, microseconds) before the next
write or the return: the trace is a sequence of pairs write, delay 2, so writes and
delays alternate and are equal in number. The same holds for the pin trace of any
sequence of helper calls, so also for each display of `TM1637Crowl`. -/
theorem every_write_then_settle_delay (var : Variant) (txt : List Nat) (len : Nat)
    (sep : Bool) (v br : Nat) (h : min len 4 ≤ txt.length) (hv : v < 65536) :
    (∀ set, ClockPin set = [PinEvent.clk set, PinEvent.delay 2] ∧
      DataPin set = [PinEvent.dio set, PinEvent.delay 2]) ∧
    (∀ calls : List Call, writesSettled (pinTrace calls) = true) ∧
    (writesSettled (pinTrace (TM1637SetBrightness br)) = true ∧
      (pinTrace (TM1637SetBrightness br)).countP PinEvent.isWrite =
        (pinTrace (TM1637SetBrightness br)).countP (fun e => e == PinEvent.delay 2) ∧
      (pinTrace (TM1637SetBrightness br)).length =
        2 * (pinTrace (TM1637SetBrightness br)).countP PinEvent.isWrite) ∧
    (∃ calls, TM1637DisplayText var.ASCIIMap txt len sep = Except.ok calls ∧
      writesSettled (pinTrace calls) = true ∧
      (pinTrace calls).countP PinEvent.isWrite =
        (pinTrace calls).countP (fun e => e == PinEvent.delay 2) ∧
      (pinTrace calls).length = 2 * (pinTrace calls).countP PinEvent.isWrite) ∧
    (∃ calls, TM1637DisplayNumber var.ASCIIMap v sep = Except.ok calls ∧
      writesSettled (pinTrace calls) = true ∧
      (pinTrace calls).countP PinEvent.isWrite =
        (pinTrace calls).countP (fun e => e == PinEvent.delay 2) ∧
      (pinTrace calls).length = 2 * (pinTrace calls).countP PinEvent.isWrite) := by
  refine ⟨fun set => ⟨rfl, rfl⟩, pinTrace_settled,
    ⟨pinTrace_settled _, (pinTrace_counts _).1, (pinTrace_counts _).2⟩, ?_, ?_⟩
  · obtain ⟨ds, heq, -, -⟩ := displayText_ok var txt len sep h
    exact ⟨_, heq, pinTrace_settled _, (pinTrace_counts _).1, (pinTrace_counts _).2⟩
  · obtain ⟨calls, p, q, heq, -, -, -, -⟩ := displayNumber_two_frames var v sep hv
    exact ⟨calls, heq, pinTrace_settled _, (pinTrace_counts _).1, (pinTrace_counts _).2⟩

theorem every_write_then_settle_delay_witness :
    (min 0 4 ≤ ([] : List Nat).length ∧ 7 < 65536 ∧
      writesSettled (pinTrace (TM1637SetBrightness 0x88)) = true ∧
      ∃ calls, TM1637DisplayText Variant.flat.ASCIIMap [] 0 false = Except.ok calls ∧
        writesSettled (pinTrace calls) = true) ∧
    StartTransmision =
      [PinEvent.clk true, PinEvent.delay 2, PinEvent.dio true, PinEvent.delay 2,
       PinEvent.dio false, PinEvent.delay 2] ∧
    writesSettled [PinEvent.clk true, PinEvent.dio true, PinEvent.delay 2] = false ∧
    writesSettled [PinEvent.clk true, PinEvent.delay 2, PinEvent.delay 2] = false ∧
    writesSettled [PinEvent.clk true, PinEvent.delay 3] = false ∧
    writesSettled [PinEvent.clk true] = false :=
  ⟨⟨by decide, by decide,
    (every_write_then_settle_delay Variant.flat [] 0 false 7 0x88
      (by decide) (by decide)).2.2.1.1,
    (every_write_then_settle_delay Variant.flat [] 0 false 7 0x88
      (by decide) (by decide)).2.2.2.1.imp (fun _ hc => ⟨hc.1, hc.2.1⟩)⟩,
   by rfl, by rfl, by rfl, by rfl, by rfl⟩

/-- C17: every display or brightness call runs to completion: the embeddings of
`TM1637SetBrightness`, `TM1637DisplayText` and `TM1637DisplayNumber` yield a finite
trace for all inputs; the data loop of `TM1637DisplayText` makes min(len,4) passes,
at most 4, `WriteByte` makes exactly 8 `WriteBit` calls, and the busy wait
`DelayUSb(us)` makes exactly `us` passes of its outer loop (10 `nop`s each), for
every `us`, so for every 32-bit one. -/
theorem calls_run_to_completion (var : Variant) (txt : List Nat) (len : Nat) (sep : Bool)
    (v br us : Nat) (h : min len 4 ≤ txt.length) (hv : v < 65536) :
    (DelayUSb us = (us, 10 * us) ∧ forLoopPasses 8 10 11 0 = some 10) ∧
    ((WriteByteCalls br).length = 8 ∧ forLoopPasses 32 8 9 0 = some 8 ∧
      (WriteByte br).length = 48) ∧
    (pinTrace (TM1637SetBrightness br)).length = 68 ∧
    (min len 4 ≤ 4 ∧
      forLoopPasses 8 (if len > 4 then 4 else len) 5 0 = some (min len 4) ∧
      ∃ calls, TM1637DisplayText var.ASCIIMap txt len sep = Except.ok calls ∧
        (dataBytes calls).length = min len 4 ∧
        (pinTrace calls).length = 136 + 54 * min len 4) ∧
    (forLoopPasses 8 4 5 0 = some 4 ∧
      ∃ calls, TM1637DisplayNumber var.ASCIIMap v sep = Except.ok calls ∧
        (dataBytes calls).length = 4 ∧ (pinTrace calls).length = 352) := by
  have hb : (if len > 4 then 4 else len) = min len 4 := by
    split <;> omega
  refine ⟨⟨delayUSb_eq us, by decide⟩, ⟨?_, by decide, writeByte_length br⟩, ?_,
    ⟨by omega, ?_, ?_⟩, ⟨by decide, ?_⟩⟩
  · have hc : WriteByteCalls br = (List.range' 0 8).map (fun j => br.testBit j) :=
      writeByteLoop_eq br 8 0
    simp [hc]
  · have h1 : StartTransmision.length = 6 := rfl
    have h2 : StopTransmision.length = 8 := rfl
    have h3 : SkipAck.length = 6 := rfl
    simp only [TM1637SetBrightness, pinTrace, List.flatMap_cons, List.flatMap_nil,
      List.append_nil, Call.pins, List.length_append, writeByte_length, h1, h2, h3]
  · rw [hb]
    exact forLoopPasses_small 8 (min len 4) (by decide) (by omega)
  · obtain ⟨ds, heq, hlen, -⟩ := displayText_ok var txt len sep h
    exact ⟨_, heq, by rw [dataBytes_displayText, hlen],
      by rw [displayText_pins_length, hlen]⟩
  · have hd := displayNumberLoop_digits v hv
    obtain ⟨ds, heq, hlen, -⟩ :=
      displayText_ok var (DisplayNumberLoop 4 0 v (arrayOfInit 4 [])) 4 sep (by simp [hd])
    exact ⟨_, heq, by rw [dataBytes_displayText, hlen]; rfl,
      by rw [displayText_pins_length, hlen]; rfl⟩

theorem calls_run_to_completion_witness :
    min 200 4 ≤ [76, 79, 78, 71, 69, 82].length ∧ 65535 < 65536 ∧
    DelayUSb 4294967295 = (4294967295, 10 * 4294967295) ∧
    (∃ calls,
      TM1637DisplayText Variant.core.ASCIIMap [76, 79, 78, 71, 69, 82] 200 true =
        Except.ok calls ∧
      (dataBytes calls).length = min 200 4 ∧
      (pinTrace calls).length = 136 + 54 * min 200 4) ∧
    (∃ calls, TM1637DisplayNumber Variant.core.ASCIIMap 65535 true = Except.ok calls ∧
      (dataBytes calls).length = 4 ∧ (pinTrace calls).length = 352) ∧
    forLoopPasses 8 4 4 0 = none :=
  ⟨by decide, by decide,
   (calls_run_to_completion Variant.core [76, 79, 78, 71, 69, 82] 200 true 65535 0x8f
     4294967295 (by decide) (by decide)).1.1,
   (calls_run_to_completion Variant.core [76, 79, 78, 71, 69, 82] 200 true 65535 0x8f
     4294967295 (by decide) (by decide)).2.2.2.1.2.2,
   (calls_run_to_completion Variant.core [76, 79, 78, 71, 69, 82] 200 true 65535 0x8f
     4294967295 (by decide) (by decide)).2.2.2.2.2,
   by rfl⟩

/-- C18: with both lines high on entry, in the pin trace of `TM1637SetBrightness`,
`TM1637DisplayText` and `TM1637DisplayNumber` the data line changes while the clock
is high only at frame boundaries: each `StartTransmision` causes exactly one START
condition, each `StopTransmision` exactly one STOP condition, in the order START,
STOP (brightness) or START, STOP, START, STOP (text, number); `WriteByte` and
`SkipAck` cause none, whatever the line levels at their entry, and the data level at
the 8 clock rises of `WriteByte(b)` is bit 0, .., bit 7 of `b`. -/
theorem bus_conditions_only_at_frame_boundaries (var : Variant) (txt : List Nat) (len : Nat)
    (sep : Bool) (v br : Nat) (h : min len 4 ≤ txt.length) (hv : v < 65536) :
    (∀ s b, busEvents s (WriteByte b) =
      (List.range 8).map (fun i => BusEvent.rise (decide (b / 2 ^ i % 2 = 1)))) ∧
    (∀ s, busEvents s SkipAck = [BusEvent.rise s.dio]) ∧
    ((busEvents Lines.idle (pinTrace (TM1637SetBrightness br))).filter BusEvent.isCondition =
        [BusEvent.START, BusEvent.STOP] ∧
      ∀ x ∈ busPerCall Lines.idle (TM1637SetBrightness br), x.1.busAsMeant x.2) ∧
    (∃ calls, TM1637DisplayText var.ASCIIMap txt len sep = Except.ok calls ∧
      (busEvents Lines.idle (pinTrace calls)).filter BusEvent.isCondition =
        [BusEvent.START, BusEvent.STOP, BusEvent.START, BusEvent.STOP] ∧
      ∀ x ∈ busPerCall Lines.idle calls, x.1.busAsMeant x.2) ∧
    (∃ calls, TM1637DisplayNumber var.ASCIIMap v sep = Except.ok calls ∧
      (busEvents Lines.idle (pinTrace calls)).filter BusEvent.isCondition =
        [BusEvent.START, BusEvent.STOP, BusEvent.START, BusEvent.STOP] ∧
      ∀ x ∈ busPerCall Lines.idle calls, x.1.busAsMeant x.2) := by
  have one : ∀ p : List Call, p.all Call.isPayload = true →
      (busEvents Lines.idle (pinTrace (frame p))).filter BusEvent.isCondition =
        [BusEvent.START, BusEvent.STOP] ∧
      ∀ x ∈ busPerCall Lines.idle (frame p), x.1.busAsMeant x.2 := by
    intro p hp
    obtain ⟨-, -, h3, h4⟩ := frame_bus p [] hp
    rw [List.append_nil] at h3 h4
    exact ⟨h3, h4 (fun x hx => by simp [busPerCall] at hx)⟩
  have two : ∀ p q : List Call, p.all Call.isPayload = true → q.all Call.isPayload = true →
      (busEvents Lines.idle (pinTrace (frame p ++ frame q))).filter BusEvent.isCondition =
        [BusEvent.START, BusEvent.STOP, BusEvent.START, BusEvent.STOP] ∧
      ∀ x ∈ busPerCall Lines.idle (frame p ++ frame q), x.1.busAsMeant x.2 := by
    intro p q hp hq
    obtain ⟨-, -, h3, h4⟩ := frame_bus p (frame q) hp
    obtain ⟨g3, g4⟩ := one q hq
    exact ⟨by rw [h3, g3], h4 g4⟩
  refine ⟨fun s b => bus_writeByte s b, bus_skipAck,
    one [Call.WriteByte br, Call.SkipAck] rfl, ?_, ?_⟩
  · obtain ⟨calls, p, q, heq, hc, hp, hq, -⟩ := displayText_two_frames var txt len sep h
    exact ⟨calls, heq, by rw [hc]; exact two p q hp hq⟩
  · obtain ⟨calls, p, q, heq, hc, hp, hq, -⟩ := displayNumber_two_frames var v sep hv
    exact ⟨calls, heq, by rw [hc]; exact two p q hp hq⟩

theorem bus_conditions_only_at_frame_boundaries_witness :
    (min 1 4 ≤ [45].length ∧ 9 < 65536 ∧
      (busEvents Lines.idle (pinTrace (TM1637SetBrightness 0x8a))).filter
          BusEvent.isCondition = [BusEvent.START, BusEvent.STOP] ∧
      ∃ calls, TM1637DisplayText Variant.core.ASCIIMap [45] 1 false = Except.ok calls ∧
        (busEvents Lines.idle (pinTrace calls)).filter BusEvent.isCondition =
          [BusEvent.START, BusEvent.STOP, BusEvent.START, BusEvent.STOP]) ∧
    busEvents Lines.idle (pinTrace (TM1637SetBrightness 0x8a)) =
      [BusEvent.START,
       BusEvent.rise false, BusEvent.rise true, BusEvent.rise false, BusEvent.rise true,
       BusEvent.rise false, BusEvent.rise false, BusEvent.rise false, BusEvent.rise true,
       BusEvent.rise true,
       BusEvent.rise false, BusEvent.STOP] ∧
    busEvents { clk := true, dio := false } StartTransmision =
      [BusEvent.STOP, BusEvent.START] :=
  ⟨⟨by decide, by decide,
    (bus_conditions_only_at_frame_boundaries Variant.core [45] 1 false 9 0x8a
      (by decide) (by decide)).2.2.1.1,
    (bus_conditions_only_at_frame_boundaries Variant.core [45] 1 false 9 0x8a
      (by decide) (by decide)).2.2.2.1.imp (fun _ hc => ⟨hc.1, hc.2.1⟩)⟩,
   by rfl, by rfl⟩

/-- C19: every entry of the sparser table (flat `TM1637.c`) is 0 or equal to the
entry of the fuller table (`Core/Src/TM1637.c`), and the entries of '0'..'9'
coincide; so `TM1637DisplayNumber` gives the same call trace, hence the same pin
trace, with either table for every `v` and separator flag, and so does
`TM1637DisplayText` on a text none of whose displayed characters is blank in the
sparser table. `TM1637SetBrightness` uses no table and has the same text in both
files: its trace holds the byte `br` only. -/
theorem variants_agree_off_blank_entries (txt : List Nat) (len : Nat) (sep : Bool)
    (v br : Nat) (h : min len 4 ≤ txt.length) (hv : v < 65536)
    (hnb : ∀ i c, i < min len 4 → txt[i]? = some c → Flat.ASCIIMap[c % 128]? ≠ some 0) :
    (∀ c, c < 128 → ∃ f g, Flat.ASCIIMap[c]? = some f ∧ Core.ASCIIMap[c]? = some g ∧
      (f = 0 ∨ f = g)) ∧
    (∀ d, d < 10 → Flat.ASCIIMap[48 + d]? = Core.ASCIIMap[48 + d]?) ∧
    (∃ calls, TM1637DisplayNumber Flat.ASCIIMap v sep = Except.ok calls ∧
      TM1637DisplayNumber Core.ASCIIMap v sep = Except.ok calls ∧
      (TM1637DisplayNumber Flat.ASCIIMap v sep).map pinTrace =
        (TM1637DisplayNumber Core.ASCIIMap v sep).map pinTrace) ∧
    (∃ calls, TM1637DisplayText Flat.ASCIIMap txt len sep = Except.ok calls ∧
      TM1637DisplayText Core.ASCIIMap txt len sep = Except.ok calls ∧
      (TM1637DisplayText Flat.ASCIIMap txt len sep).map pinTrace =
        (TM1637DisplayText Core.ASCIIMap txt len sep).map pinTrace) ∧
    bytesWritten (TM1637SetBrightness br) = [br] := by
  refine ⟨?_, ?_, ?_, ?_, rfl⟩
  · intro c hc
    have hf : c < Flat.ASCIIMap.length := by
      rw [show Flat.ASCIIMap.length = 128 from variant_map_length Variant.flat]; exact hc
    have hg : c < Core.ASCIIMap.length := by
      rw [show Core.ASCIIMap.length = 128 from variant_map_length Variant.core]; exact hc
    obtain ⟨f, hf1⟩ : ∃ f, Flat.ASCIIMap[c]? = some f := ⟨_, List.getElem?_eq_getElem hf⟩
    obtain ⟨g, hg1⟩ : ∃ g, Core.ASCIIMap[c]? = some g := ⟨_, List.getElem?_eq_getElem hg⟩
    refine ⟨f, g, hf1, hg1, ?_⟩
    rcases flat_blank_or_core c hc with h0 | h1
    · left
      exact Option.some.inj (hf1.symm.trans h0)
    · right
      exact Option.some.inj (hf1.symm.trans (h1.trans hg1))
  · intro d hd
    have e : (48 + d) % 128 = 48 + d := by omega
    have h1 := digit_lookup Variant.flat d hd
    have h2 := digit_lookup Variant.core d hd
    rw [e] at h1 h2
    exact h1.trans h2.symm
  · have hd := displayNumberLoop_digits v hv
    have key : TM1637DisplayNumber Flat.ASCIIMap v sep =
        TM1637DisplayNumber Core.ASCIIMap v sep := by
      rw [TM1637DisplayNumber, TM1637DisplayNumber, hd]
      apply displayText_eq_of_lookup_eq Variant.core Variant.flat _ _ 4 sep
        (by simp) (by simp)
      intro i c c' hi hc hc'
      have hcc : c' = c := Option.some.inj (hc'.symm.trans hc)
      subst hcc
      have hdig : ∃ d, d < 10 ∧ c' = 48 + d := by
        have hi4 : i < 4 := by simpa using hi
        interval_cases i
        · exact ⟨v % 10000 / 1000, by omega, by simpa using hc.symm⟩
        · exact ⟨v % 10000 / 100 % 10, by omega, by simpa using hc.symm⟩
        · exact ⟨v % 10000 / 10 % 10, by omega, by simpa using hc.symm⟩
        · exact ⟨v % 10000 % 10, by omega, by simpa using hc.symm⟩
      obtain ⟨d, hd10, rfl⟩ := hdig
      exact (digit_lookup Variant.flat d hd10).trans (digit_lookup Variant.core d hd10).symm
    obtain ⟨calls, p, q, heq, -, -, -, -⟩ := displayNumber_two_frames Variant.core v sep hv
    exact ⟨calls, key.trans heq, heq, by rw [key]⟩
  · have key : TM1637DisplayText Flat.ASCIIMap txt len sep =
        TM1637DisplayText Core.ASCIIMap txt len sep := by
      apply displayText_eq_of_lookup_eq Variant.core Variant.flat txt txt len sep h h
      intro i c c' hi hc hc'
      have hcc : c' = c := Option.some.inj (hc'.symm.trans hc)
      subst hcc
      rcases flat_blank_or_core (c' % 128) (Nat.mod_lt _ (by decide)) with h0 | h1
      · exact absurd h0 (hnb i c' hi hc)
      · exact h1
    obtain ⟨ds, heq, -, -⟩ := displayText_ok Variant.core txt len sep h
    exact ⟨_, key.trans heq, heq, by rw [key]⟩

set_option maxRecDepth 8192 in
theorem variants_agree_off_blank_entries_witness :
    (min 4 4 ≤ [65, 98, 83, 57].length ∧ 1234 < 65536 ∧
      (∀ i c, i < min 4 4 → [65, 98, 83, 57][i]? = some c →
        Flat.ASCIIMap[c % 128]? ≠ some 0) ∧
      (∃ calls, TM1637DisplayNumber Flat.ASCIIMap 1234 true = Except.ok calls ∧
        TM1637DisplayNumber Core.ASCIIMap 1234 true = Except.ok calls) ∧
      (∃ calls, TM1637DisplayText Flat.ASCIIMap [65, 98, 83, 57] 4 true = Except.ok calls ∧
        TM1637DisplayText Core.ASCIIMap [65, 98, 83, 57] 4 true = Except.ok calls)) ∧
    TM1637DisplayText Flat.ASCIIMap [72] 1 false =
      Except.ok
        [Call.StartTransmision, Call.WriteByte 0x40, Call.SkipAck, Call.StopTransmision,
         Call.StartTransmision, Call.WriteByte 0xc0, Call.SkipAck,
         Call.WriteByte 0x00, Call.SkipAck, Call.StopTransmision] ∧
    TM1637DisplayText Core.ASCIIMap [72] 1 false =
      Except.ok
        [Call.StartTransmision, Call.WriteByte 0x40, Call.SkipAck, Call.StopTransmision,
         Call.StartTransmision, Call.WriteByte 0xc0, Call.SkipAck,
         Call.WriteByte 0x76, Call.SkipAck, Call.StopTransmision] := by
  have hnb : ∀ i c, i < min 4 4 → [65, 98, 83, 57][i]? = some c →
      Flat.ASCIIMap[c % 128]? ≠ some 0 := by
    intro i c hi hc
    have hi4 : i < 4 := by simpa using hi
    interval_cases i <;> simp at hc <;> subst hc <;> decide
  have w := variants_agree_off_blank_entries [65, 98, 83, 57] 4 true 1234 0x8a
    (by decide) (by decide) hnb
  exact ⟨⟨by decide, by decide, hnb,
    w.2.2.1.imp (fun _ hc => ⟨hc.1, hc.2.1⟩),
    w.2.2.2.1.imp (fun _ hc => ⟨hc.1, hc.2.1⟩)⟩, by rfl, by rfl⟩

/-- C20 fails on the code when the message has `BUF_LEN - 2` or `BUF_LEN - 1`
characters: for a message of length L with 1 <= L <= BUF_LEN - 1, `TM1637Crowl`
passes the windows at offsets 0 .. L + 3 to `TM1637DisplayText`, the last of which
reads entry L + 6 of the `BUF_LEN + 4` entries of `buf`; a read outside `buf` occurs
when BUF_LEN <= L + 2, and none occurs when L + 3 <= BUF_LEN. -/
theorem crowl_reads_past_buffer (BUF_LEN initialDelay charDelay : Nat) (msg : List Nat)
    (h1 : 1 ≤ msg.length) (h2 : msg.length + 1 ≤ BUF_LEN) :
    (BUF_LEN ≤ msg.length + 2 →
      ∃ j, TM1637Crowl BUF_LEN initialDelay charDelay msg =
        Except.error (Fault.txtOutOfBounds j)) ∧
    (msg.length + 3 ≤ BUF_LEN →
      ∃ evs, TM1637Crowl BUF_LEN initialDelay charDelay msg = Except.ok evs ∧
        evs.length = 2 * (msg.length + 4) + 1) := by
  obtain ⟨hlen, hret⟩ := vsnprintf_result BUF_LEN msg (by omega)
  obtain ⟨ds, heq, -, -⟩ := displayText_ok Variant.core
    (vsnprintf (arrayOfInit (BUF_LEN + 4) []) BUF_LEN msg).1 4 false
    (by rw [hlen]; omega)
  have heq' : TM1637DisplayText Core.ASCIIMap
      (vsnprintf (arrayOfInit (BUF_LEN + 4) []) BUF_LEN msg).1 4 false = Except.ok _ := heq
  have hnot : ¬ msg.length < 1 := by omega
  refine ⟨?_, ?_⟩
  · intro hb
    obtain ⟨j, hj⟩ := crowlLoop_fault
      (vsnprintf (arrayOfInit (BUF_LEN + 4) []) BUF_LEN msg).1 charDelay
      (msg.length + 4 - 1) 1 (by omega) (by rw [hlen]; omega)
    refine ⟨j, ?_⟩
    simp only [TM1637Crowl, hret, hnot, if_false, heq', hj, bind, Except.bind]
  · intro hb
    obtain ⟨evs, hev, hl⟩ := crowlLoop_ok
      (vsnprintf (arrayOfInit (BUF_LEN + 4) []) BUF_LEN msg).1 charDelay
      (msg.length + 4 - 1) 1 (by rw [hlen]; omega)
    have hres : TM1637Crowl BUF_LEN initialDelay charDelay msg =
        Except.ok (CrowlEvent.display
          ([Call.StartTransmision, Call.WriteByte 0x40, Call.SkipAck, Call.StopTransmision,
            Call.StartTransmision, Call.WriteByte 0xc0, Call.SkipAck]
            ++ ds.flatMap (fun d => [Call.WriteByte d, Call.SkipAck])
            ++ [Call.StopTransmision]) :: CrowlEvent.halDelay initialDelay ::
          (evs ++ [CrowlEvent.halDelay initialDelay])) := by
      simp only [TM1637Crowl, hret, hnot, if_false, heq', hev, bind, Except.bind, pure,
        Except.pure]
    refine ⟨_, hres, ?_⟩
    simp only [List.length_cons, List.length_append, List.length_nil, hl]
    omega

set_option maxRecDepth 16384 in
theorem crowl_reads_past_buffer_witness :
    (1 ≤ [49, 50, 51, 52, 53, 54, 55].length ∧ [49, 50, 51, 52, 53, 54, 55].length + 1 ≤ 8 ∧
      (8 ≤ [49, 50, 51, 52, 53, 54, 55].length + 2 →
        ∃ j, TM1637Crowl 8 500 100 [49, 50, 51, 52, 53, 54, 55] =
          Except.error (Fault.txtOutOfBounds j))) ∧
    TM1637Crowl 8 500 100 [49, 50, 51, 52, 53, 54, 55] =
      Except.error (Fault.txtOutOfBounds 3) ∧
    vsnprintf (arrayOfInit (8 + 4) []) 8 [49, 50, 51, 52, 53, 54, 55] =
      ([49, 50, 51, 52, 53, 54, 55, 0, 0, 0, 0, 0], 7) ∧
    (vsnprintf (arrayOfInit (8 + 4) []) 8 [49, 50, 51, 52, 53, 54, 55]).1.drop 9 =
      [0, 0, 0] ∧
    TM1637Crowl 8 500 100 [49, 50, 51, 52, 53, 54] =
      Except.error (Fault.txtOutOfBounds 3) ∧
    (TM1637Crowl 8 500 100 [49, 50, 51, 52, 53]).map List.length = Except.ok 19 :=
  ⟨⟨by decide, by decide,
    (crowl_reads_past_buffer 8 500 100 [49, 50, 51, 52, 53, 54, 55]
      (by decide) (by decide)).1⟩,
   by rfl, by rfl, by rfl, by rfl, by rfl⟩

end TM1637
